import Mathlib

/-!
Shallow embedding of the fungible-token contract in `src/src/lib.rs`.

Modelling conventions:
* `Address` is modelled as `Nat` (an abstract identifier with decidable
  equality; nothing in the code depends on the 20-byte representation).
* `u128` values are modelled as `Nat`; the checked arithmetic of the source
  (`checked_add` / `checked_sub`) is modelled explicitly with the bound
  `U128MAX = 2^128 - 1`, so overflow behaviour is faithful.
* `BTreeMap` is modelled as an association list with no duplicate keys;
  `insertA` removes every older binding of the key, so as a key/value map it
  has exactly the semantics of `BTreeMap::insert` (iteration order is not
  used by the contract except through `sumVals`, which is order-insensitive).
* Rust panics (`assert!`, `panic!`, `.expect`) abort the call before
  `save()` runs; they are modelled as `Except Err` / an error component, with
  one `Err` constructor per distinct panic message:
    - "Only the owner can call this function" / "Only authorized caller can
      mint tokens" / "Authorized caller can be added by contract owner only"
      -> `Err.Unauthorized`
    - "The contract is already initialized" / "Contract has already been
      initialized" -> `Err.AlreadyInitialized`
    - "The contract isn't initialized" -> `Err.NotInitialized`
    - "Invalid decimals" -> `Err.InvalidMetadata`
    - "account_ids and amounts length mismatch" -> `Err.LengthMismatch`
    - "total_supply is overflowed" / "Balance overflowed" / "amount
      overflowed" -> `Err.ArithmeticOverflow`
    - "Not enough balance to transfer" -> `Err.InsufficientBalance`
    - "Self transfer is not allowed" / "User cannot approve themselves as a
      spender" / "Owner and spender cannot be the same" -> `Err.InvalidOperation`
    - "'{}' should have tokens in the balance" -> `Err.NoBalance`
    - "No allowance for {spender}" / "{owner} didn't set allowance for
      {spender}" / "The current allowance is None or zero" -> `Err.NoAllowance`
    - "The allowance is too small" -> `Err.AllowanceTooSmall`
    - "This address is already an authorized caller" -> `Err.AlreadyAuthorized`
    - "Amount should be greater than 0" -> `Err.InvalidAmount`
* The persistent store holds one serialized blob under one fixed key; it is
  modelled as `Store := Option L1xFtErc20`.  Each public operation is a
  function `Store → ... → Store × Option Err`, returning the store after the
  call together with the error of the first failing assertion (if any); the
  source calls `save()` only as the final statement of a successful call, and
  the embedding mirrors that control flow.
* The host guarantees `caller_address()` and `contract_owner_address()`;
  they are passed as explicit `caller` / `owner` arguments.
-/

abbrev Address := Nat

def U128MAX : Nat := 2 ^ 128 - 1

/-- Model of `u128::checked_add`. -/
def checked_add (a b : Nat) : Option Nat :=
  if a + b ≤ U128MAX then some (a + b) else none

/-- Model of `u128::checked_sub`. -/
def checked_sub (a b : Nat) : Option Nat :=
  if b ≤ a then some (a - b) else none

/-- Lookup in an association-list map (model of `BTreeMap::get` /
`LookupMap::get`). -/
def lookupA {α : Type} : List (Address × α) → Address → Option α
  | [], _ => none
  | (k, v) :: rest, k' => if k' = k then some v else lookupA rest k'

/-- Remove every binding of a key (auxiliary for `insertA`). -/
def eraseA {α : Type} : List (Address × α) → Address → List (Address × α)
  | [], _ => []
  | (k, v) :: rest, k' => if k' = k then eraseA rest k' else (k, v) :: eraseA rest k'

/-- Insert/replace a binding (model of `BTreeMap::insert` /
`LookupMap::insert`): as a key/value map, the old binding of `k` is gone and
`k` is bound to `v`. -/
def insertA {α : Type} (m : List (Address × α)) (k : Address) (v : α) :
    List (Address × α) :=
  (k, v) :: eraseA m k

/-- Balance read with the `unwrap_or_default()` convention: absent key is 0. -/
def getD (m : List (Address × Nat)) (k : Address) : Nat :=
  (lookupA m k).getD 0

/-- Sum of all values stored in the map. -/
def sumVals (m : List (Address × Nat)) : Nat :=
  (m.map Prod.snd).sum

def keysOf {α : Type} (m : List (Address × α)) : List Address :=
  m.map Prod.fst

/-- A well-formed map binds each key at most once (true of any `BTreeMap`). -/
def NodupKeys {α : Type} (m : List (Address × α)) : Prop :=
  (keysOf m).Nodup

/-- Error kinds, one per distinct panic message of the source (see header). -/
inductive Err where
  | Unauthorized
  | AlreadyInitialized
  | NotInitialized
  | InvalidMetadata
  | LengthMismatch
  | ArithmeticOverflow
  | InsufficientBalance
  | InvalidOperation
  | NoBalance
  | NoAllowance
  | AllowanceTooSmall
  | AlreadyAuthorized
  | InvalidAmount
  deriving Repr, DecidableEq

/-- Model of `FTMetadata` (lib.rs:13-19); `decimals : u8` as `Nat`. -/
structure FTMetadata where
  name : String
  decimals : Nat
  symbol : String
  icon : Option String
  deriving Repr, DecidableEq

/-- Model of `FTAllowance` (lib.rs:21-24): per-owner map spender → amount. -/
structure FTAllowance where
  spenders : List (Address × Nat)
  deriving Repr, DecidableEq

/-- Model of `FTAllowance::set` (lib.rs:27-29). -/
def FTAllowance.set (a : FTAllowance) (spender_id : Address) (amount : Nat) :
    FTAllowance :=
  { spenders := insertA a.spenders spender_id amount }

/-- Model of `FTAllowance::get` (lib.rs:31-33). -/
def FTAllowance.get (a : FTAllowance) (spender_id : Address) : Nat :=
  (lookupA a.spenders spender_id).getD 0

/-- Model of `FTAllowance::increase` (lib.rs:35-46): checked add on an
existing entry (panic "amount overflowed" on overflow), insert on absence. -/
def FTAllowance.increase (a : FTAllowance) (spender_id : Address) (amount : Nat) :
    Except Err FTAllowance :=
  match lookupA a.spenders spender_id with
  | some current_amount =>
    match checked_add current_amount amount with
    | some v => .ok { spenders := insertA a.spenders spender_id v }
    | none => .error .ArithmeticOverflow
  | none => .ok { spenders := insertA a.spenders spender_id amount }

/-- Model of `FTAllowance::spend` (lib.rs:52-60): on a present spender key,
assert `allowance ≥ amount` ("The allowance is too small") and subtract; on an
absent spender key, panic "No allowance for {spender_id}". -/
def FTAllowance.spend (a : FTAllowance) (spender_id : Address) (amount : Nat) :
    Except Err FTAllowance :=
  match lookupA a.spenders spender_id with
  | some allowance_amount =>
    if allowance_amount ≥ amount then
      .ok { spenders := insertA a.spenders spender_id (allowance_amount - amount) }
    else .error .AllowanceTooSmall
  | none => .error .NoAllowance

/-- Model of `FTAllowance::decrease` (lib.rs:48-50): delegates to `spend`. -/
def FTAllowance.decrease (a : FTAllowance) (spender_id : Address) (amount : Nat) :
    Except Err FTAllowance :=
  a.spend spender_id amount

/-- Model of `AllowanceUpdateOp` (lib.rs:63-68). -/
inductive AllowanceUpdateOp where
  | Set
  | Increase
  | Decrease
  | Spend
  deriving Repr, DecidableEq

/-- Model of the contract state `L1xFtErc20` (lib.rs:70-77).
`authorized_callers : BTreeSet<Address>` is modelled as a duplicate-free list. -/
structure L1xFtErc20 where
  metadata : FTMetadata
  balances : List (Address × Nat)
  allowances : List (Address × FTAllowance)
  total_supply : Nat
  authorized_callers : List Address
  deriving Repr, DecidableEq

/-- Model of `L1xFtErc20::balance_of` (lib.rs:354-356). -/
def L1xFtErc20.balance_of (c : L1xFtErc20) (account_id : Address) : Option Nat :=
  lookupA c.balances account_id

/-- Model of `L1xFtErc20::mint` (lib.rs:276-292): checked bump of
`total_supply`, then checked bump of the recipient balance; either overflow
panics ("total_supply is overflowed" / "Balance overflowed"). -/
def L1xFtErc20.mint (c : L1xFtErc20) (recipient_id : Address) (amount : Nat) :
    Except Err L1xFtErc20 :=
  let receiver_balance := (c.balance_of recipient_id).getD 0
  match checked_add c.total_supply amount with
  | none => .error .ArithmeticOverflow
  | some ts =>
    match checked_add receiver_balance amount with
    | none => .error .ArithmeticOverflow
    | some nb =>
      .ok { c with total_supply := ts, balances := insertA c.balances recipient_id nb }

/-- Model of `L1xFtErc20::transfer` (lib.rs:294-315): self-transfer is
rejected first, then the sender-balance check, then the checked subtraction
and checked addition. -/
def L1xFtErc20.transfer (c : L1xFtErc20) (sender_id recipient_id : Address)
    (amount : Nat) : Except Err L1xFtErc20 :=
  if sender_id = recipient_id then .error .InvalidOperation
  else
    let sender_balance := (c.balance_of sender_id).getD 0
    if sender_balance ≥ amount then
      match checked_sub sender_balance amount with
      | none => .error .ArithmeticOverflow
      | some sb =>
        let c1 := { c with balances := insertA c.balances sender_id sb }
        let receiver_balance := (c1.balance_of recipient_id).getD 0
        match checked_add receiver_balance amount with
        | none => .error .ArithmeticOverflow
        | some rb =>
          .ok { c1 with balances := insertA c1.balances recipient_id rb }
    else .error .InsufficientBalance

/-- Model of `L1xFtErc20::allowance_update` (lib.rs:317-352).  The `Decrease`
branch with no owner entry panics "The current allowance is None or zero" and
the `Spend` branch with no owner entry panics "{owner_id} didn't set allowance
for {spender_id}"; both are `Err.NoAllowance`. -/
def L1xFtErc20.allowance_update (c : L1xFtErc20) (update_op : AllowanceUpdateOp)
    (owner_id spender_id : Address) (amount : Nat) : Except Err L1xFtErc20 :=
  match update_op, lookupA c.allowances owner_id with
  | .Set, some al =>
    .ok { c with allowances := insertA c.allowances owner_id (al.set spender_id amount) }
  | .Set, none =>
    .ok { c with allowances := insertA c.allowances owner_id (FTAllowance.set ⟨[]⟩ spender_id amount) }
  | .Increase, some al =>
    match al.increase spender_id amount with
    | .ok al' => .ok { c with allowances := insertA c.allowances owner_id al' }
    | .error e => .error e
  | .Increase, none =>
    .ok { c with allowances := insertA c.allowances owner_id (FTAllowance.set ⟨[]⟩ spender_id amount) }
  | .Decrease, some al =>
    match al.decrease spender_id amount with
    | .ok al' => .ok { c with allowances := insertA c.allowances owner_id al' }
    | .error e => .error e
  | .Decrease, none => .error .NoAllowance
  | .Spend, some al =>
    match al.spend spender_id amount with
    | .ok al' => .ok { c with allowances := insertA c.allowances owner_id al' }
    | .error e => .error e
  | .Spend, none => .error .NoAllowance

/-- Model of the body of `ft_allowance` after the load (lib.rs:267-274). -/
def L1xFtErc20.allowanceOf (c : L1xFtErc20) (owner_id spender_id : Address) : Nat :=
  match lookupA c.allowances owner_id with
  | some allowance => allowance.get spender_id
  | none => 0

/-- The persistent store: one blob under one fixed key (lib.rs:9, 367-376). -/
abbrev Store := Option L1xFtErc20

/-- Model of `L1xFtErc20::load` (lib.rs:367-372): panic "The contract isn't
initialized" when the store is empty. -/
def L1xFtErc20.load (s : Store) : Except Err L1xFtErc20 :=
  match s with
  | some c => .ok c
  | none => .error .NotInitialized

/-- Model of `L1xFtErc20::save` (lib.rs:374-376): write the whole state. -/
def L1xFtErc20.save (c : L1xFtErc20) : Store :=
  some c

/-- Model of the loop body of `initialize_balance_holders` (lib.rs:117-130):
walk the zipped list, skipping accounts already seen, otherwise inserting the
balance and doing a checked add on `total_supply`. -/
def initGo (c : L1xFtErc20) (seen : List Address) :
    List (Address × Nat) → Except Err L1xFtErc20
  | [] => .ok c
  | (account_id, amount) :: rest =>
    if account_id ∈ seen then initGo c seen rest
    else
      match checked_add c.total_supply amount with
      | none => .error .ArithmeticOverflow
      | some ts =>
        initGo { c with balances := insertA c.balances account_id amount,
                        total_supply := ts }
          (account_id :: seen) rest

/-- Model of `L1xFtErc20::initialize_balance_holders` (lib.rs:105-131). -/
def L1xFtErc20.initialize_balance_holders (c : L1xFtErc20)
    (account_ids : List Address) (amounts : List Nat) : Except Err L1xFtErc20 :=
  if account_ids.length ≠ amounts.length then .error .LengthMismatch
  else if c.total_supply ≠ 0 then .error .AlreadyInitialized
  else initGo c [] (account_ids.zip amounts)

/-- The in-memory contract built by `new` before balances are seeded
(lib.rs:94-100). -/
def initialContract (owner : Address) (md : FTMetadata) : L1xFtErc20 :=
  { metadata := md
    balances := []
    allowances := []
    total_supply := 0
    authorized_callers := [owner] }

/-- Model of the public constructor `L1xFtErc20::new` (lib.rs:81-103).
`owner` is `contract_owner_address()`, `caller` is `caller_address()`. -/
def L1xFtErc20.new (s : Store) (owner caller : Address) (md : FTMetadata)
    (account_ids : List Address) (amounts : List Nat) : Store × Option Err :=
  if caller ≠ owner then (s, some .Unauthorized)
  else
    match s with
    | some _ => (s, some .AlreadyInitialized)
    | none =>
      if md.decimals > 18 then (s, some .InvalidMetadata)
      else
        match (initialContract owner md).initialize_balance_holders account_ids amounts with
        | .error e => (s, some e)
        | .ok c => (c.save, none)

/-- Model of `add_authorized_caller` (lib.rs:133-150): load first, then the
owner check, then the duplicate check, then insert and save. -/
def L1xFtErc20.add_authorized_caller (s : Store) (owner caller : Address)
    (authorized_caller : Address) : Store × Option Err :=
  match L1xFtErc20.load s with
  | .error e => (s, some e)
  | .ok c =>
    if owner ≠ caller then (s, some .Unauthorized)
    else if authorized_caller ∈ c.authorized_callers then (s, some .AlreadyAuthorized)
    else ({ c with authorized_callers := authorized_caller :: c.authorized_callers }.save, none)

/-- Model of `ft_mint` (lib.rs:177-188): load, authorized-caller check,
nonzero-amount check, `mint`, save. -/
def L1xFtErc20.ft_mint (s : Store) (caller recipient_id : Address) (amount : Nat) :
    Store × Option Err :=
  match L1xFtErc20.load s with
  | .error e => (s, some e)
  | .ok c =>
    if caller ∈ c.authorized_callers then
      if amount = 0 then (s, some .InvalidAmount)
      else
        match c.mint recipient_id amount with
        | .error e => (s, some e)
        | .ok c' => (c'.save, none)
    else (s, some .Unauthorized)

/-- Model of `ft_transfer` (lib.rs:190-198): the nonzero-amount check comes
BEFORE the load, then `transfer` with sender = caller, then save. -/
def L1xFtErc20.ft_transfer (s : Store) (caller recipient_id : Address) (amount : Nat) :
    Store × Option Err :=
  if amount = 0 then (s, some .InvalidAmount)
  else
    match L1xFtErc20.load s with
    | .error e => (s, some e)
    | .ok c =>
      match c.transfer caller recipient_id amount with
      | .error e => (s, some e)
      | .ok c' => (c'.save, none)

/-- Model of `ft_transfer_from` (lib.rs:200-209): nonzero-amount check BEFORE
the load, then spend the caller's allowance from the sender, then `transfer`,
then save. -/
def L1xFtErc20.ft_transfer_from (s : Store) (caller sender_id recipient_id : Address)
    (amount : Nat) : Store × Option Err :=
  if amount = 0 then (s, some .InvalidAmount)
  else
    match L1xFtErc20.load s with
    | .error e => (s, some e)
    | .ok c =>
      match c.allowance_update .Spend sender_id caller amount with
      | .error e => (s, some e)
      | .ok c1 =>
        match c1.transfer sender_id recipient_id amount with
        | .error e => (s, some e)
        | .ok c2 => (c2.save, none)

/-- Model of `ft_approve` (lib.rs:221-233): load, self-approve check,
non-zero-balance check, `Set` allowance update (any amount, 0 included), save. -/
def L1xFtErc20.ft_approve (s : Store) (caller spender_id : Address) (amount : Nat) :
    Store × Option Err :=
  match L1xFtErc20.load s with
  | .error e => (s, some e)
  | .ok c =>
    if caller = spender_id then (s, some .InvalidOperation)
    else if getD c.balances caller = 0 then (s, some .NoBalance)
    else
      match c.allowance_update .Set caller spender_id amount with
      | .error e => (s, some e)
      | .ok c' => (c'.save, none)

/-- Model of `ft_increase_allowance` (lib.rs:235-249): nonzero-amount check
BEFORE the load, then self-spender check, non-zero-balance check, `Increase`
allowance update, save. -/
def L1xFtErc20.ft_increase_allowance (s : Store) (caller spender_id : Address)
    (amount : Nat) : Store × Option Err :=
  if amount = 0 then (s, some .InvalidAmount)
  else
    match L1xFtErc20.load s with
    | .error e => (s, some e)
    | .ok c =>
      if caller = spender_id then (s, some .InvalidOperation)
      else if getD c.balances caller = 0 then (s, some .NoBalance)
      else
        match c.allowance_update .Increase caller spender_id amount with
        | .error e => (s, some e)
        | .ok c' => (c'.save, none)

/-- Model of `ft_decrease_allowance` (lib.rs:251-265): nonzero-amount check
BEFORE the load, then self-spender check, non-zero-balance check, `Decrease`
allowance update, save. -/
def L1xFtErc20.ft_decrease_allowance (s : Store) (caller spender_id : Address)
    (amount : Nat) : Store × Option Err :=
  if amount = 0 then (s, some .InvalidAmount)
  else
    match L1xFtErc20.load s with
    | .error e => (s, some e)
    | .ok c =>
      if caller = spender_id then (s, some .InvalidOperation)
      else if getD c.balances caller = 0 then (s, some .NoBalance)
      else
        match c.allowance_update .Decrease caller spender_id amount with
        | .error e => (s, some e)
        | .ok c' => (c'.save, none)

/-- One mutating public call other than `new`, with its caller identity and
arguments (the read-only endpoints never write). -/
inductive Op where
  | opMint (caller recipient_id : Address) (amount : Nat)
  | opTransfer (caller recipient_id : Address) (amount : Nat)
  | opTransferFrom (caller sender_id recipient_id : Address) (amount : Nat)
  | opApprove (caller spender_id : Address) (amount : Nat)
  | opIncreaseAllowance (caller spender_id : Address) (amount : Nat)
  | opDecreaseAllowance (caller spender_id : Address) (amount : Nat)
  | opAddAuthorizedCaller (caller authorized_caller : Address)
  deriving Repr, DecidableEq

/-- Dispatch of one public call against the store (`owner` is the fixed
`contract_owner_address()`). -/
def applyOp (owner : Address) (o : Op) (s : Store) : Store × Option Err :=
  match o with
  | .opMint caller r a => L1xFtErc20.ft_mint s caller r a
  | .opTransfer caller r a => L1xFtErc20.ft_transfer s caller r a
  | .opTransferFrom caller snd r a => L1xFtErc20.ft_transfer_from s caller snd r a
  | .opApprove caller sp a => L1xFtErc20.ft_approve s caller sp a
  | .opIncreaseAllowance caller sp a => L1xFtErc20.ft_increase_allowance s caller sp a
  | .opDecreaseAllowance caller sp a => L1xFtErc20.ft_decrease_allowance s caller sp a
  | .opAddAuthorizedCaller caller ac => L1xFtErc20.add_authorized_caller s owner caller ac

/-- Run a sequence of public calls; a failing call leaves the store as it
was (nothing is persisted on failure). -/
def runOps (owner : Address) (ops : List Op) (s : Store) : Store :=
  ops.foldl (fun s o => (applyOp owner o s).1) s

/-- Stores reachable from the empty store by any calls to `new` and the other
public operations, with arbitrary callers and arguments. -/
inductive Reachable (owner : Address) : Store → Prop
  | init : Reachable owner none
  | newStep {s : Store} (caller : Address) (md : FTMetadata)
      (account_ids : List Address) (amounts : List Nat) :
      Reachable owner s →
      Reachable owner (L1xFtErc20.new s owner caller md account_ids amounts).1
  | opStep {s : Store} (o : Op) :
      Reachable owner s → Reachable owner (applyOp owner o s).1

/-- Well-formedness of a contract state as it exists in the Rust program: the
balance map has no duplicate keys, the conservation law holds, and
`total_supply` fits in `u128`. -/
def Wf (c : L1xFtErc20) : Prop :=
  NodupKeys c.balances ∧ sumVals c.balances = c.total_supply ∧ c.total_supply ≤ U128MAX

instance (m : List (Address × Nat)) : Decidable (NodupKeys m) := by
  unfold NodupKeys
  infer_instance

instance (c : L1xFtErc20) : Decidable (Wf c) := by
  unfold Wf
  infer_instance

/-- First-occurrence-wins deduplication of a key/value list, following the
spec wording "deduplicates accounts (first occurrence wins)"; `seen`
accumulates the keys already kept. -/
def dedupKeysGo (seen : List Address) : List (Address × Nat) → List (Address × Nat)
  | [] => []
  | (a, m) :: rest =>
    if a ∈ seen then dedupKeysGo seen rest
    else (a, m) :: dedupKeysGo (a :: seen) rest

/-! Lemmas about the association-list map. -/

theorem lookupA_eraseA {α : Type} (m : List (Address × α)) (k k' : Address) :
    lookupA (eraseA m k) k' = if k' = k then none else lookupA m k' := by
  induction m with
  | nil => simp [eraseA, lookupA]
  | cons p t ih =>
    obtain ⟨a, b⟩ := p
    simp only [eraseA, lookupA]
    by_cases h1 : k = a
    · rw [if_pos h1, ih]
      subst h1
      by_cases h2 : k' = k <;> simp [h2]
    · rw [if_neg h1]
      simp only [lookupA]
      rw [ih]
      by_cases h2 : k' = a
      · subst h2
        simp [show k' ≠ k from fun h => h1 h.symm]
      · simp [h2]

theorem lookupA_insertA_self {α : Type} (m : List (Address × α)) (k : Address) (v : α) :
    lookupA (insertA m k v) k = some v := by
  simp [insertA, lookupA]

theorem lookupA_insertA_ne {α : Type} (m : List (Address × α)) (k : Address) (v : α)
    (k' : Address) (h : k' ≠ k) : lookupA (insertA m k v) k' = lookupA m k' := by
  simp [insertA, lookupA, h, lookupA_eraseA]

theorem eraseA_sublist {α : Type} (m : List (Address × α)) (k : Address) :
    (eraseA m k).Sublist m := by
  induction m with
  | nil => simp [eraseA]
  | cons p t ih =>
    obtain ⟨a, b⟩ := p
    simp only [eraseA]
    by_cases h : k = a
    · rw [if_pos h]
      exact ih.cons _
    · rw [if_neg h]
      exact ih.cons₂ _

theorem eraseA_eq_of_not_mem {α : Type} (m : List (Address × α)) (k : Address)
    (h : k ∉ keysOf m) : eraseA m k = m := by
  induction m with
  | nil => rfl
  | cons p t ih =>
    obtain ⟨a, b⟩ := p
    simp only [keysOf, List.map_cons, List.mem_cons] at h
    push_neg at h
    simp only [eraseA, if_neg h.1]
    rw [ih (by simpa [keysOf] using h.2)]

theorem not_mem_keysOf_eraseA {α : Type} (m : List (Address × α)) (k : Address) :
    k ∉ keysOf (eraseA m k) := by
  induction m with
  | nil => simp [eraseA, keysOf]
  | cons p t ih =>
    obtain ⟨a, b⟩ := p
    by_cases h : k = a
    · simpa [eraseA, if_pos h] using ih
    · simpa [eraseA, if_neg h, keysOf] using ⟨h, by simpa [keysOf] using ih⟩

theorem nodupKeys_eraseA {α : Type} (m : List (Address × α)) (k : Address)
    (h : NodupKeys m) : NodupKeys (eraseA m k) :=
  ((eraseA_sublist m k).map Prod.fst).nodup h

theorem nodupKeys_insertA {α : Type} (m : List (Address × α)) (k : Address) (v : α)
    (h : NodupKeys m) : NodupKeys (insertA m k v) := by
  have h1 := not_mem_keysOf_eraseA m k
  have h2 := nodupKeys_eraseA m k h
  simpa [insertA, NodupKeys, keysOf] using
    ⟨by simpa [keysOf] using h1, by simpa [NodupKeys, keysOf] using h2⟩

theorem sumVals_insertA (m : List (Address × Nat)) (k : Address) (v : Nat) :
    sumVals (insertA m k v) = v + sumVals (eraseA m k) := by
  simp [insertA, sumVals]

theorem sumVals_eraseA (m : List (Address × Nat)) (k : Address) (h : NodupKeys m) :
    sumVals m = getD m k + sumVals (eraseA m k) := by
  induction m with
  | nil => simp [sumVals, eraseA, getD, lookupA]
  | cons p t ih =>
    obtain ⟨a, b⟩ := p
    simp only [NodupKeys, keysOf, List.map_cons, List.nodup_cons] at h
    by_cases hk : k = a
    · subst hk
      have : eraseA t k = t :=
        eraseA_eq_of_not_mem t k (by simpa [keysOf] using h.1)
      simp [sumVals, eraseA, getD, lookupA, this]
    · have ht := ih (by simpa [NodupKeys, keysOf] using h.2)
      simp only [getD, lookupA, if_neg (fun hh => hk hh)] at ht ⊢
      simp only [eraseA, if_neg hk, sumVals, List.map_cons, List.sum_cons] at ht ⊢
      omega

theorem getD_le_sumVals (m : List (Address × Nat)) (k : Address) (h : NodupKeys m) :
    getD m k ≤ sumVals m := by
  have := sumVals_eraseA m k h
  omega

theorem getD_eraseA_ne (m : List (Address × Nat)) (k k' : Address) (h : k' ≠ k) :
    getD (eraseA m k) k' = getD m k' := by
  simp [getD, lookupA_eraseA, h]

theorem getD_insertA_self (m : List (Address × Nat)) (k : Address) (v : Nat) :
    getD (insertA m k v) k = v := by
  simp [getD, lookupA_insertA_self]

theorem getD_insertA_ne (m : List (Address × Nat)) (k : Address) (v : Nat)
    (k' : Address) (h : k' ≠ k) : getD (insertA m k v) k' = getD m k' := by
  simp [getD, lookupA_insertA_ne _ _ _ _ h]

theorem getD_pair_le_sumVals (m : List (Address × Nat)) (k1 k2 : Address)
    (h : NodupKeys m) (hne : k1 ≠ k2) : getD m k1 + getD m k2 ≤ sumVals m := by
  have h1 := sumVals_eraseA m k1 h
  have h2 := getD_le_sumVals (eraseA m k1) k2 (nodupKeys_eraseA m k1 h)
  have h3 := getD_eraseA_ne m k1 k2 (Ne.symm hne)
  omega

/-! Characterizations of the core mutators. -/

/-- The balance map written by a successful transfer. -/
def transferResultBalances (m : List (Address × Nat)) (s r : Address) (a : Nat) :
    List (Address × Nat) :=
  insertA (insertA m s (getD m s - a)) r (getD m r + a)

/-- Closed-form description of `L1xFtErc20::transfer`, read off lib.rs:294-315:
the self-transfer check, then the balance check, then the checked subtraction
(which cannot fail after the balance check) and the checked addition on the
recipient balance read after the sender update. -/
theorem transfer_eq (c : L1xFtErc20) (s r : Address) (a : Nat) :
    c.transfer s r a =
      if s = r then .error .InvalidOperation
      else if getD c.balances s < a then .error .InsufficientBalance
      else if U128MAX < getD c.balances r + a then .error .ArithmeticOverflow
      else .ok { c with balances := transferResultBalances c.balances s r a } := by
  by_cases h1 : s = r
  · simp [L1xFtErc20.transfer, h1]
  · simp only [L1xFtErc20.transfer, L1xFtErc20.balance_of, if_neg h1, ge_iff_le]
    by_cases h2 : getD c.balances s < a
    · rw [if_pos h2]
      rw [if_neg (by simpa [getD] using Nat.not_le.mpr h2)]
    · rw [if_neg h2]
      have h2' : a ≤ (lookupA c.balances s).getD 0 := by
        simpa [getD] using Nat.not_lt.mp h2
      rw [if_pos h2']
      simp only [checked_sub, if_pos h2']
      have hr : lookupA (insertA c.balances s ((lookupA c.balances s).getD 0 - a)) r
          = lookupA c.balances r := lookupA_insertA_ne _ _ _ _ (Ne.symm h1)
      simp only [hr, checked_add]
      by_cases h3 : U128MAX < getD c.balances r + a
      · rw [if_pos h3]
        rw [if_neg (by simpa [getD] using Nat.not_le.mpr h3)]
      · rw [if_neg h3]
        rw [if_pos (by simpa [getD] using Nat.not_lt.mp h3)]
        simp [getD, transferResultBalances]

/-- Closed-form description of `L1xFtErc20::mint` (lib.rs:276-292). -/
theorem mint_eq (c : L1xFtErc20) (r : Address) (a : Nat) :
    c.mint r a =
      if U128MAX < c.total_supply + a then .error .ArithmeticOverflow
      else if U128MAX < getD c.balances r + a then .error .ArithmeticOverflow
      else .ok { c with total_supply := c.total_supply + a,
                        balances := insertA c.balances r (getD c.balances r + a) } := by
  simp only [L1xFtErc20.mint, L1xFtErc20.balance_of, checked_add]
  by_cases h1 : U128MAX < c.total_supply + a
  · rw [if_pos h1, if_neg (Nat.not_le.mpr h1)]
  · rw [if_neg h1, if_pos (Nat.not_lt.mp h1)]
    by_cases h2 : U128MAX < getD c.balances r + a
    · rw [if_pos h2]
      rw [if_neg (by simpa [getD] using Nat.not_le.mpr h2)]
    · rw [if_neg h2]
      rw [if_pos (by simpa [getD] using Nat.not_lt.mp h2)]
      simp [getD]

/-- A state with the same balance map and supply as a well-formed state is
well-formed. -/
theorem wf_of_same_core (c c' : L1xFtErc20) (hw : Wf c)
    (hb : c'.balances = c.balances) (ht : c'.total_supply = c.total_supply) :
    Wf c' := by
  rw [Wf, hb, ht]
  exact hw

/-- A successful transfer preserves well-formedness: the moved amount leaves
the balance sum unchanged. -/
theorem transfer_wf (c c' : L1xFtErc20) (s r : Address) (a : Nat) (hw : Wf c)
    (h : c.transfer s r a = .ok c') : Wf c' := by
  rw [transfer_eq] at h
  split_ifs at h with h1 h2 h3
  obtain ⟨hnd, hsum, hle⟩ := hw
  simp only [Except.ok.injEq] at h
  subst h
  have hrs : r ≠ s := fun hh => h1 hh.symm
  have ha : a ≤ getD c.balances s := Nat.not_lt.mp h2
  have e1 := sumVals_eraseA c.balances s hnd
  have e2 : sumVals (insertA c.balances s (getD c.balances s - a)) =
      (getD c.balances s - a) + sumVals (eraseA c.balances s) :=
    sumVals_insertA _ _ _
  have hnd2 : NodupKeys (insertA c.balances s (getD c.balances s - a)) :=
    nodupKeys_insertA _ _ _ hnd
  have e3 := sumVals_eraseA (insertA c.balances s (getD c.balances s - a)) r hnd2
  have e4 : sumVals (insertA (insertA c.balances s (getD c.balances s - a)) r
      (getD c.balances r + a)) = (getD c.balances r + a) +
      sumVals (eraseA (insertA c.balances s (getD c.balances s - a)) r) :=
    sumVals_insertA _ _ _
  have e5 : getD (insertA c.balances s (getD c.balances s - a)) r =
      getD c.balances r := getD_insertA_ne _ _ _ _ hrs
  refine ⟨nodupKeys_insertA _ _ _ hnd2, ?_, hle⟩
  simp only [transferResultBalances]
  omega

/-- A successful mint preserves well-formedness: the balance sum and the
supply both grow by the minted amount. -/
theorem mint_wf (c c' : L1xFtErc20) (r : Address) (a : Nat) (hw : Wf c)
    (h : c.mint r a = .ok c') : Wf c' := by
  rw [mint_eq] at h
  split_ifs at h with h1 h2
  obtain ⟨hnd, hsum, hle⟩ := hw
  simp only [Except.ok.injEq] at h
  subst h
  have e1 := sumVals_eraseA c.balances r hnd
  have e2 : sumVals (insertA c.balances r (getD c.balances r + a)) =
      (getD c.balances r + a) + sumVals (eraseA c.balances r) :=
    sumVals_insertA _ _ _
  refine ⟨nodupKeys_insertA _ _ _ hnd, ?_, Nat.not_lt.mp h1⟩
  simp only
  omega

/-- A successful mint grows `total_supply` by exactly the minted amount. -/
theorem mint_total (c c' : L1xFtErc20) (r : Address) (a : Nat)
    (h : c.mint r a = .ok c') : c'.total_supply = c.total_supply + a := by
  rw [mint_eq] at h
  split_ifs at h
  simp only [Except.ok.injEq] at h
  subst h
  rfl

/-- A successful transfer leaves every field except `balances` unchanged. -/
theorem transfer_fields (c c' : L1xFtErc20) (s r : Address) (a : Nat)
    (h : c.transfer s r a = .ok c') :
    c'.total_supply = c.total_supply ∧ c'.allowances = c.allowances ∧
    c'.authorized_callers = c.authorized_callers ∧ c'.metadata = c.metadata := by
  rw [transfer_eq] at h
  split_ifs at h
  simp only [Except.ok.injEq] at h
  subst h
  exact ⟨rfl, rfl, rfl, rfl⟩

/-- A successful `allowance_update` changes the `allowances` field only. -/
theorem allowance_update_fields (c c' : L1xFtErc20) (op : AllowanceUpdateOp)
    (o sp : Address) (am : Nat) (h : c.allowance_update op o sp am = .ok c') :
    c'.balances = c.balances ∧ c'.total_supply = c.total_supply ∧
    c'.authorized_callers = c.authorized_callers ∧ c'.metadata = c.metadata := by
  cases op <;> simp only [L1xFtErc20.allowance_update] at h <;>
    (repeat' split at h) <;>
    first
      | exact Except.noConfusion h
      | (simp only [Except.ok.injEq] at h; subst h; exact ⟨rfl, rfl, rfl, rfl⟩)

/-! Case analysis of each public operation: either the call leaves the store
untouched, or it succeeded and wrote exactly the state produced by the core
mutators. -/

theorem ft_mint_cases (s : Store) (caller r : Address) (a : Nat) :
    ((L1xFtErc20.ft_mint s caller r a).1 = s ∧ (L1xFtErc20.ft_mint s caller r a).2 ≠ none) ∨
    ∃ c c', s = some c ∧ c.mint r a = .ok c' ∧
      L1xFtErc20.ft_mint s caller r a = (some c', none) := by
  cases s with
  | none => exact Or.inl ⟨rfl, by simp [L1xFtErc20.ft_mint, L1xFtErc20.load]⟩
  | some c =>
    simp only [L1xFtErc20.ft_mint, L1xFtErc20.load]
    by_cases h1 : caller ∈ c.authorized_callers
    · rw [if_pos h1]
      by_cases h2 : a = 0
      · rw [if_pos h2]; exact Or.inl ⟨rfl, by simp⟩
      · rw [if_neg h2]
        cases hm : c.mint r a with
        | error e => exact Or.inl ⟨rfl, by simp⟩
        | ok c' => right; exact ⟨c, c', rfl, hm, rfl⟩
    · rw [if_neg h1]; exact Or.inl ⟨rfl, by simp⟩

theorem ft_transfer_cases (s : Store) (caller r : Address) (a : Nat) :
    ((L1xFtErc20.ft_transfer s caller r a).1 = s ∧ (L1xFtErc20.ft_transfer s caller r a).2 ≠ none) ∨
    ∃ c c', s = some c ∧ c.transfer caller r a = .ok c' ∧
      L1xFtErc20.ft_transfer s caller r a = (some c', none) := by
  simp only [L1xFtErc20.ft_transfer]
  by_cases h0 : a = 0
  · rw [if_pos h0]; exact Or.inl ⟨rfl, by simp⟩
  · rw [if_neg h0]
    cases s with
    | none => exact Or.inl ⟨rfl, by simp [L1xFtErc20.load]⟩
    | some c =>
      simp only [L1xFtErc20.load]
      cases hm : c.transfer caller r a with
      | error e => exact Or.inl ⟨rfl, by simp⟩
      | ok c' => right; exact ⟨c, c', rfl, hm, rfl⟩

theorem ft_transfer_from_cases (s : Store) (caller snd r : Address) (a : Nat) :
    ((L1xFtErc20.ft_transfer_from s caller snd r a).1 = s ∧ (L1xFtErc20.ft_transfer_from s caller snd r a).2 ≠ none) ∨
    ∃ c c1 c2, s = some c ∧ c.allowance_update .Spend snd caller a = .ok c1 ∧
      c1.transfer snd r a = .ok c2 ∧
      L1xFtErc20.ft_transfer_from s caller snd r a = (some c2, none) := by
  simp only [L1xFtErc20.ft_transfer_from]
  by_cases h0 : a = 0
  · rw [if_pos h0]; exact Or.inl ⟨rfl, by simp⟩
  · rw [if_neg h0]
    cases s with
    | none => exact Or.inl ⟨rfl, by simp [L1xFtErc20.load]⟩
    | some c =>
      simp only [L1xFtErc20.load]
      cases hs : c.allowance_update .Spend snd caller a with
      | error e => exact Or.inl ⟨rfl, by simp⟩
      | ok c1 =>
        dsimp only
        cases ht : c1.transfer snd r a with
        | error e => exact Or.inl ⟨rfl, by simp⟩
        | ok c2 => right; exact ⟨c, c1, c2, rfl, hs, ht, rfl⟩

theorem ft_approve_cases (s : Store) (caller sp : Address) (a : Nat) :
    ((L1xFtErc20.ft_approve s caller sp a).1 = s ∧ (L1xFtErc20.ft_approve s caller sp a).2 ≠ none) ∨
    ∃ c c', s = some c ∧ c.allowance_update .Set caller sp a = .ok c' ∧
      L1xFtErc20.ft_approve s caller sp a = (some c', none) := by
  cases s with
  | none => exact Or.inl ⟨rfl, by simp [L1xFtErc20.ft_approve, L1xFtErc20.load]⟩
  | some c =>
    simp only [L1xFtErc20.ft_approve, L1xFtErc20.load]
    by_cases h1 : caller = sp
    · rw [if_pos h1]; exact Or.inl ⟨rfl, by simp⟩
    · rw [if_neg h1]
      by_cases h2 : getD c.balances caller = 0
      · rw [if_pos h2]; exact Or.inl ⟨rfl, by simp⟩
      · rw [if_neg h2]
        cases hu : c.allowance_update .Set caller sp a with
        | error e => exact Or.inl ⟨rfl, by simp⟩
        | ok c' => right; exact ⟨c, c', rfl, hu, rfl⟩

theorem ft_increase_allowance_cases (s : Store) (caller sp : Address) (a : Nat) :
    ((L1xFtErc20.ft_increase_allowance s caller sp a).1 = s ∧ (L1xFtErc20.ft_increase_allowance s caller sp a).2 ≠ none) ∨
    ∃ c c', s = some c ∧ c.allowance_update .Increase caller sp a = .ok c' ∧
      L1xFtErc20.ft_increase_allowance s caller sp a = (some c', none) := by
  simp only [L1xFtErc20.ft_increase_allowance]
  by_cases h0 : a = 0
  · rw [if_pos h0]; exact Or.inl ⟨rfl, by simp⟩
  · rw [if_neg h0]
    cases s with
    | none => exact Or.inl ⟨rfl, by simp [L1xFtErc20.load]⟩
    | some c =>
      simp only [L1xFtErc20.load]
      by_cases h1 : caller = sp
      · rw [if_pos h1]; exact Or.inl ⟨rfl, by simp⟩
      · rw [if_neg h1]
        by_cases h2 : getD c.balances caller = 0
        · rw [if_pos h2]; exact Or.inl ⟨rfl, by simp⟩
        · rw [if_neg h2]
          cases hu : c.allowance_update .Increase caller sp a with
          | error e => exact Or.inl ⟨rfl, by simp⟩
          | ok c' => right; exact ⟨c, c', rfl, hu, rfl⟩

theorem ft_decrease_allowance_cases (s : Store) (caller sp : Address) (a : Nat) :
    ((L1xFtErc20.ft_decrease_allowance s caller sp a).1 = s ∧ (L1xFtErc20.ft_decrease_allowance s caller sp a).2 ≠ none) ∨
    ∃ c c', s = some c ∧ c.allowance_update .Decrease caller sp a = .ok c' ∧
      L1xFtErc20.ft_decrease_allowance s caller sp a = (some c', none) := by
  simp only [L1xFtErc20.ft_decrease_allowance]
  by_cases h0 : a = 0
  · rw [if_pos h0]; exact Or.inl ⟨rfl, by simp⟩
  · rw [if_neg h0]
    cases s with
    | none => exact Or.inl ⟨rfl, by simp [L1xFtErc20.load]⟩
    | some c =>
      simp only [L1xFtErc20.load]
      by_cases h1 : caller = sp
      · rw [if_pos h1]; exact Or.inl ⟨rfl, by simp⟩
      · rw [if_neg h1]
        by_cases h2 : getD c.balances caller = 0
        · rw [if_pos h2]; exact Or.inl ⟨rfl, by simp⟩
        · rw [if_neg h2]
          cases hu : c.allowance_update .Decrease caller sp a with
          | error e => exact Or.inl ⟨rfl, by simp⟩
          | ok c' => right; exact ⟨c, c', rfl, hu, rfl⟩

theorem add_authorized_caller_cases (s : Store) (owner caller ac : Address) :
    ((L1xFtErc20.add_authorized_caller s owner caller ac).1 = s ∧ (L1xFtErc20.add_authorized_caller s owner caller ac).2 ≠ none) ∨
    ∃ c, s = some c ∧
      L1xFtErc20.add_authorized_caller s owner caller ac =
        (some { c with authorized_callers := ac :: c.authorized_callers }, none) := by
  cases s with
  | none => exact Or.inl ⟨rfl, by simp [L1xFtErc20.add_authorized_caller, L1xFtErc20.load]⟩
  | some c =>
    simp only [L1xFtErc20.add_authorized_caller, L1xFtErc20.load]
    by_cases h1 : owner ≠ caller
    · rw [if_pos h1]; exact Or.inl ⟨rfl, by simp⟩
    · rw [if_neg h1]
      by_cases h2 : ac ∈ c.authorized_callers
      · rw [if_pos h2]; exact Or.inl ⟨rfl, by simp⟩
      · rw [if_neg h2]; right; exact ⟨c, rfl, rfl⟩

theorem new_cases (s : Store) (owner caller : Address) (md : FTMetadata)
    (ids : List Address) (amts : List Nat) :
    ((L1xFtErc20.new s owner caller md ids amts).1 = s ∧ (L1xFtErc20.new s owner caller md ids amts).2 ≠ none) ∨
    ∃ c, s = none ∧
      (initialContract owner md).initialize_balance_holders ids amts = .ok c ∧
      L1xFtErc20.new s owner caller md ids amts = (some c, none) := by
  simp only [L1xFtErc20.new]
  by_cases h1 : caller ≠ owner
  · rw [if_pos h1]; exact Or.inl ⟨rfl, by simp⟩
  · rw [if_neg h1]
    cases s with
    | some c => exact Or.inl ⟨rfl, by simp⟩
    | none =>
      by_cases h2 : md.decimals > 18
      · rw [if_pos h2]; exact Or.inl ⟨rfl, by simp⟩
      · rw [if_neg h2]
        cases hi : (initialContract owner md).initialize_balance_holders ids amts with
        | error e => exact Or.inl ⟨rfl, by simp⟩
        | ok c => right; exact ⟨c, rfl, rfl, rfl⟩

/-! Facts about the initialization loop. -/

theorem initGo_wf (pairs : List (Address × Nat)) :
    ∀ (c : L1xFtErc20) (seen : List Address) (c' : L1xFtErc20),
    NodupKeys c.balances → sumVals c.balances = c.total_supply →
    c.total_supply ≤ U128MAX → (∀ k, k ∈ keysOf c.balances → k ∈ seen) →
    initGo c seen pairs = .ok c' → Wf c' := by
  induction pairs with
  | nil =>
    intro c seen c' hnd hsum hle hsub h
    simp only [initGo, Except.ok.injEq] at h
    subst h
    exact ⟨hnd, hsum, hle⟩
  | cons p rest ih =>
    obtain ⟨aid, amt⟩ := p
    intro c seen c' hnd hsum hle hsub h
    simp only [initGo] at h
    by_cases hmem : aid ∈ seen
    · rw [if_pos hmem] at h
      exact ih c seen c' hnd hsum hle hsub h
    · rw [if_neg hmem] at h
      simp only [checked_add] at h
      by_cases hof : c.total_supply + amt ≤ U128MAX
      · rw [if_pos hof] at h
        have hkey : aid ∉ keysOf c.balances := fun hk => hmem (hsub aid hk)
        have herase : eraseA c.balances aid = c.balances :=
          eraseA_eq_of_not_mem _ _ hkey
        refine ih _ _ c' ?_ ?_ ?_ ?_ h
        · exact nodupKeys_insertA _ _ _ hnd
        · show sumVals (insertA c.balances aid amt) = c.total_supply + amt
          rw [sumVals_insertA, herase]
          omega
        · exact hof
        · intro k hk
          simp only [insertA, herase, keysOf, List.map_cons, List.mem_cons] at hk
          rcases hk with hk | hk
          · exact hk ▸ List.mem_cons_self aid seen
          · exact List.mem_cons_of_mem _ (hsub k (by simpa [keysOf] using hk))
      · rw [if_neg hof] at h
        exact Except.noConfusion h

/-- Accounts already seen are never written again by the loop. -/
theorem initGo_lookup_seen (pairs : List (Address × Nat)) :
    ∀ (c : L1xFtErc20) (seen : List Address) (c' : L1xFtErc20),
    initGo c seen pairs = .ok c' →
    ∀ x, x ∈ seen → lookupA c'.balances x = lookupA c.balances x := by
  induction pairs with
  | nil =>
    intro c seen c' h x hx
    simp only [initGo, Except.ok.injEq] at h
    subst h
    rfl
  | cons p rest ih =>
    obtain ⟨aid, amt⟩ := p
    intro c seen c' h x hx
    simp only [initGo] at h
    by_cases hmem : aid ∈ seen
    · rw [if_pos hmem] at h
      exact ih c seen c' h x hx
    · rw [if_neg hmem] at h
      simp only [checked_add] at h
      by_cases hof : c.total_supply + amt ≤ U128MAX
      · rw [if_pos hof] at h
        have hxa : x ≠ aid := fun hh => hmem (hh ▸ hx)
        have := ih _ _ c' h x (List.mem_cons_of_mem _ hx)
        rw [this]
        exact lookupA_insertA_ne _ _ _ _ hxa
      · rw [if_neg hof] at h
        exact Except.noConfusion h

/-- For an account not yet seen, the final balance is its first-listed amount
in the remaining input, or its previous balance when it does not occur. -/
theorem initGo_lookup_new (pairs : List (Address × Nat)) :
    ∀ (c : L1xFtErc20) (seen : List Address) (c' : L1xFtErc20),
    initGo c seen pairs = .ok c' →
    ∀ x, x ∉ seen →
      lookupA c'.balances x =
        (match lookupA pairs x with
          | some v => some v
          | none => lookupA c.balances x) := by
  induction pairs with
  | nil =>
    intro c seen c' h x hx
    simp only [initGo, Except.ok.injEq] at h
    subst h
    rfl
  | cons p rest ih =>
    obtain ⟨aid, amt⟩ := p
    intro c seen c' h x hx
    simp only [initGo] at h
    by_cases hmem : aid ∈ seen
    · rw [if_pos hmem] at h
      have hxa : x ≠ aid := fun hh => hx (hh ▸ hmem)
      rw [ih c seen c' h x hx]
      simp only [lookupA, if_neg hxa]
    · rw [if_neg hmem] at h
      simp only [checked_add] at h
      by_cases hof : c.total_supply + amt ≤ U128MAX
      · rw [if_pos hof] at h
        by_cases hxa : x = aid
        · subst hxa
          have := initGo_lookup_seen rest _ _ c' h x (List.mem_cons_self x seen)
          rw [this, lookupA_insertA_self]
          simp [lookupA]
        · have := ih _ _ c' h x (by simp [hxa, hx])
          rw [this, lookupA_insertA_ne _ _ _ _ hxa]
          simp only [lookupA, if_neg hxa]
      · rw [if_neg hof] at h
        exact Except.noConfusion h

/-- The loop adds exactly the first-occurrence amounts to `total_supply`. -/
theorem initGo_total (pairs : List (Address × Nat)) :
    ∀ (c : L1xFtErc20) (seen : List Address) (c' : L1xFtErc20),
    initGo c seen pairs = .ok c' →
    c'.total_supply = c.total_supply + sumVals (dedupKeysGo seen pairs) := by
  induction pairs with
  | nil =>
    intro c seen c' h
    simp only [initGo, Except.ok.injEq] at h
    subst h
    simp [dedupKeysGo, sumVals]
  | cons p rest ih =>
    obtain ⟨aid, amt⟩ := p
    intro c seen c' h
    simp only [initGo] at h
    simp only [dedupKeysGo]
    by_cases hmem : aid ∈ seen
    · rw [if_pos hmem] at h
      rw [if_pos hmem]
      exact ih c seen c' h
    · rw [if_neg hmem] at h
      rw [if_neg hmem]
      simp only [checked_add] at h
      by_cases hof : c.total_supply + amt ≤ U128MAX
      · rw [if_pos hof] at h
        have := ih _ _ c' h
        simp only [sumVals, List.map_cons, List.sum_cons] at this ⊢
        omega
      · rw [if_neg hof] at h
        exact Except.noConfusion h

/-- The loop fails (necessarily with ArithmeticOverflow) exactly when the
checked running sum of the kept amounts overflows `u128`. -/
theorem initGo_error_iff (pairs : List (Address × Nat)) :
    ∀ (c : L1xFtErc20) (seen : List Address), c.total_supply ≤ U128MAX →
    (initGo c seen pairs = .error .ArithmeticOverflow ↔
      U128MAX < c.total_supply + sumVals (dedupKeysGo seen pairs)) := by
  induction pairs with
  | nil =>
    intro c seen hle
    simp only [initGo, dedupKeysGo]
    constructor
    · intro h
      exact Except.noConfusion h
    · intro h
      simp only [sumVals, List.map_nil, List.sum_nil] at h
      omega
  | cons p rest ih =>
    obtain ⟨aid, amt⟩ := p
    intro c seen hle
    simp only [initGo, dedupKeysGo]
    by_cases hmem : aid ∈ seen
    · rw [if_pos hmem, if_pos hmem]
      exact ih c seen hle
    · rw [if_neg hmem, if_neg hmem]
      simp only [checked_add]
      by_cases hof : c.total_supply + amt ≤ U128MAX
      · rw [if_pos hof]
        have := ih { c with balances := insertA c.balances aid amt,
                            total_supply := c.total_supply + amt } (aid :: seen) hof
        simp only at this
        rw [this]
        simp only [sumVals, List.map_cons, List.sum_cons]
        omega
      · rw [if_neg hof]
        simp only [sumVals, List.map_cons, List.sum_cons]
        constructor
        · intro _
          omega
        · intro _
          trivial

/-- Success of `initialize_balance_holders` from the freshly constructed
state yields a well-formed contract. -/
theorem initialize_wf (owner : Address) (md : FTMetadata) (ids : List Address)
    (amts : List Nat) (c : L1xFtErc20)
    (h : (initialContract owner md).initialize_balance_holders ids amts = .ok c) :
    Wf c := by
  simp only [L1xFtErc20.initialize_balance_holders, initialContract] at h
  split_ifs at h
  refine initGo_wf _ _ _ _ ?_ ?_ ?_ ?_ h
  · simp [NodupKeys, keysOf]
  · simp [sumVals]
  · exact Nat.zero_le _
  · simp [keysOf]

/-! Preservation of well-formedness across the public surface. -/

/-- Every state the store may hold is well-formed. -/
def WfStore (s : Store) : Prop :=
  ∀ c, s = some c → Wf c

theorem wfStore_none : WfStore none := fun _ h => Option.noConfusion h

theorem wfStore_some (c : L1xFtErc20) (hw : Wf c) : WfStore (some c) := by
  intro c' h
  cases h
  exact hw

theorem applyOp_wf (owner : Address) (o : Op) (s : Store) (hs : WfStore s) :
    WfStore (applyOp owner o s).1 := by
  cases o with
  | opMint caller r a =>
    rcases ft_mint_cases s caller r a with ⟨h, _⟩ | ⟨c, c', hsc, hm, he⟩
    · simp only [applyOp]
      rw [h]
      exact hs
    · subst hsc
      simp only [applyOp]
      rw [he]
      exact wfStore_some _ (mint_wf c c' r a (hs c rfl) hm)
  | opTransfer caller r a =>
    rcases ft_transfer_cases s caller r a with ⟨h, _⟩ | ⟨c, c', hsc, hm, he⟩
    · simp only [applyOp]
      rw [h]
      exact hs
    · subst hsc
      simp only [applyOp]
      rw [he]
      exact wfStore_some _ (transfer_wf c c' caller r a (hs c rfl) hm)
  | opTransferFrom caller snd r a =>
    rcases ft_transfer_from_cases s caller snd r a with ⟨h, _⟩ | ⟨c, c1, c2, hsc, hsp, htr, he⟩
    · simp only [applyOp]
      rw [h]
      exact hs
    · subst hsc
      simp only [applyOp]
      rw [he]
      have hw1 : Wf c1 := by
        obtain ⟨hb, ht, _, _⟩ := allowance_update_fields c c1 .Spend snd caller a hsp
        exact wf_of_same_core c c1 (hs c rfl) hb ht
      exact wfStore_some _ (transfer_wf c1 c2 snd r a hw1 htr)
  | opApprove caller sp a =>
    rcases ft_approve_cases s caller sp a with ⟨h, _⟩ | ⟨c, c', hsc, hu, he⟩
    · simp only [applyOp]
      rw [h]
      exact hs
    · subst hsc
      simp only [applyOp]
      rw [he]
      obtain ⟨hb, ht, _, _⟩ := allowance_update_fields c c' .Set caller sp a hu
      exact wfStore_some _ (wf_of_same_core c c' (hs c rfl) hb ht)
  | opIncreaseAllowance caller sp a =>
    rcases ft_increase_allowance_cases s caller sp a with ⟨h, _⟩ | ⟨c, c', hsc, hu, he⟩
    · simp only [applyOp]
      rw [h]
      exact hs
    · subst hsc
      simp only [applyOp]
      rw [he]
      obtain ⟨hb, ht, _, _⟩ := allowance_update_fields c c' .Increase caller sp a hu
      exact wfStore_some _ (wf_of_same_core c c' (hs c rfl) hb ht)
  | opDecreaseAllowance caller sp a =>
    rcases ft_decrease_allowance_cases s caller sp a with ⟨h, _⟩ | ⟨c, c', hsc, hu, he⟩
    · simp only [applyOp]
      rw [h]
      exact hs
    · subst hsc
      simp only [applyOp]
      rw [he]
      obtain ⟨hb, ht, _, _⟩ := allowance_update_fields c c' .Decrease caller sp a hu
      exact wfStore_some _ (wf_of_same_core c c' (hs c rfl) hb ht)
  | opAddAuthorizedCaller caller ac =>
    rcases add_authorized_caller_cases s owner caller ac with ⟨h, _⟩ | ⟨c, hsc, he⟩
    · simp only [applyOp]
      rw [h]
      exact hs
    · subst hsc
      simp only [applyOp]
      rw [he]
      exact wfStore_some _ (wf_of_same_core c _ (hs c rfl) rfl rfl)

theorem new_wf (s : Store) (owner caller : Address) (md : FTMetadata)
    (ids : List Address) (amts : List Nat) (hs : WfStore s) :
    WfStore (L1xFtErc20.new s owner caller md ids amts).1 := by
  rcases new_cases s owner caller md ids amts with ⟨h, _⟩ | ⟨c, _, hinit, he⟩
  · rw [h]
    exact hs
  · rw [he]
    exact wfStore_some _ (initialize_wf owner md ids amts c hinit)

theorem reachable_wfStore (owner : Address) (s : Store) (h : Reachable owner s) :
    WfStore s := by
  induction h with
  | init => exact wfStore_none
  | newStep caller md ids amts _ ih => exact new_wf _ owner caller md ids amts ih
  | opStep o _ ih => exact applyOp_wf owner o _ ih

/-! Evolution of `total_supply` across the public surface. -/

/-- Whether a queued call is a mint. -/
def Op.isMint : Op → Bool
  | .opMint _ _ _ => true
  | _ => false

/-- A call against a live store never deletes the stored state. -/
theorem applyOp_some (owner : Address) (o : Op) (c : L1xFtErc20) :
    ∃ c1, (applyOp owner o (some c)).1 = some c1 := by
  cases o with
  | opMint caller r a =>
    rcases ft_mint_cases (some c) caller r a with ⟨h, _⟩ | ⟨c0, c', _, _, he⟩
    · exact ⟨c, by simp only [applyOp]; rw [h]⟩
    · exact ⟨c', by simp only [applyOp]; rw [he]⟩
  | opTransfer caller r a =>
    rcases ft_transfer_cases (some c) caller r a with ⟨h, _⟩ | ⟨c0, c', _, _, he⟩
    · exact ⟨c, by simp only [applyOp]; rw [h]⟩
    · exact ⟨c', by simp only [applyOp]; rw [he]⟩
  | opTransferFrom caller snd r a =>
    rcases ft_transfer_from_cases (some c) caller snd r a with ⟨h, _⟩ | ⟨c0, c1, c2, _, _, _, he⟩
    · exact ⟨c, by simp only [applyOp]; rw [h]⟩
    · exact ⟨c2, by simp only [applyOp]; rw [he]⟩
  | opApprove caller sp a =>
    rcases ft_approve_cases (some c) caller sp a with ⟨h, _⟩ | ⟨c0, c', _, _, he⟩
    · exact ⟨c, by simp only [applyOp]; rw [h]⟩
    · exact ⟨c', by simp only [applyOp]; rw [he]⟩
  | opIncreaseAllowance caller sp a =>
    rcases ft_increase_allowance_cases (some c) caller sp a with ⟨h, _⟩ | ⟨c0, c', _, _, he⟩
    · exact ⟨c, by simp only [applyOp]; rw [h]⟩
    · exact ⟨c', by simp only [applyOp]; rw [he]⟩
  | opDecreaseAllowance caller sp a =>
    rcases ft_decrease_allowance_cases (some c) caller sp a with ⟨h, _⟩ | ⟨c0, c', _, _, he⟩
    · exact ⟨c, by simp only [applyOp]; rw [h]⟩
    · exact ⟨c', by simp only [applyOp]; rw [he]⟩
  | opAddAuthorizedCaller caller ac =>
    rcases add_authorized_caller_cases (some c) owner caller ac with ⟨h, _⟩ | ⟨c0, hsc, he⟩
    · exact ⟨c, by simp only [applyOp]; rw [h]⟩
    · exact ⟨_, by simp only [applyOp]; rw [he]⟩

/-- Helper: extract equality of contracts from equality of stores. -/
theorem store_some_inj (c c' : L1xFtErc20) (h : (some c : Store) = some c') : c = c' :=
  Option.some.injEq c c' ▸ h

/-- No public call ever lowers `total_supply`. -/
theorem applyOp_total_le (owner : Address) (o : Op) (c c' : L1xFtErc20)
    (h : (applyOp owner o (some c)).1 = some c') :
    c.total_supply ≤ c'.total_supply := by
  cases o with
  | opMint caller r a =>
    rcases ft_mint_cases (some c) caller r a with ⟨h0, _⟩ | ⟨c0, c1, hsc, hm, he⟩
    · simp only [applyOp] at h
      rw [h0] at h
      injection h with h
      subst h
      exact Nat.le_refl _
    · injection hsc with hc
      subst hc
      simp only [applyOp] at h
      rw [he] at h
      injection h with h
      subst h
      have := mint_total _ _ r a hm
      omega
  | opTransfer caller r a =>
    rcases ft_transfer_cases (some c) caller r a with ⟨h0, _⟩ | ⟨c0, c1, hsc, hm, he⟩
    · simp only [applyOp] at h
      rw [h0] at h
      injection h with h
      subst h
      exact Nat.le_refl _
    · injection hsc with hc
      subst hc
      simp only [applyOp] at h
      rw [he] at h
      injection h with h
      subst h
      have := (transfer_fields _ _ caller r a hm).1
      omega
  | opTransferFrom caller snd r a =>
    rcases ft_transfer_from_cases (some c) caller snd r a with
      ⟨h0, _⟩ | ⟨c0, c1, c2, hsc, hsp, htr, he⟩
    · simp only [applyOp] at h
      rw [h0] at h
      injection h with h
      subst h
      exact Nat.le_refl _
    · injection hsc with hc
      subst hc
      simp only [applyOp] at h
      rw [he] at h
      injection h with h
      subst h
      have h1 := (allowance_update_fields _ _ .Spend snd caller a hsp).2.1
      have h2 := (transfer_fields _ _ snd r a htr).1
      omega
  | opApprove caller sp a =>
    rcases ft_approve_cases (some c) caller sp a with ⟨h0, _⟩ | ⟨c0, c1, hsc, hu, he⟩
    · simp only [applyOp] at h
      rw [h0] at h
      injection h with h
      subst h
      exact Nat.le_refl _
    · injection hsc with hc
      subst hc
      simp only [applyOp] at h
      rw [he] at h
      injection h with h
      subst h
      have := (allowance_update_fields _ _ .Set caller sp a hu).2.1
      omega
  | opIncreaseAllowance caller sp a =>
    rcases ft_increase_allowance_cases (some c) caller sp a with ⟨h0, _⟩ | ⟨c0, c1, hsc, hu, he⟩
    · simp only [applyOp] at h
      rw [h0] at h
      injection h with h
      subst h
      exact Nat.le_refl _
    · injection hsc with hc
      subst hc
      simp only [applyOp] at h
      rw [he] at h
      injection h with h
      subst h
      have := (allowance_update_fields _ _ .Increase caller sp a hu).2.1
      omega
  | opDecreaseAllowance caller sp a =>
    rcases ft_decrease_allowance_cases (some c) caller sp a with ⟨h0, _⟩ | ⟨c0, c1, hsc, hu, he⟩
    · simp only [applyOp] at h
      rw [h0] at h
      injection h with h
      subst h
      exact Nat.le_refl _
    · injection hsc with hc
      subst hc
      simp only [applyOp] at h
      rw [he] at h
      injection h with h
      subst h
      have := (allowance_update_fields _ _ .Decrease caller sp a hu).2.1
      omega
  | opAddAuthorizedCaller caller ac =>
    rcases add_authorized_caller_cases (some c) owner caller ac with ⟨h0, _⟩ | ⟨c0, hsc, he⟩
    · simp only [applyOp] at h
      rw [h0] at h
      injection h with h
      subst h
      exact Nat.le_refl _
    · injection hsc with hc
      subst hc
      simp only [applyOp] at h
      rw [he] at h
      injection h with h
      subst h
      exact Nat.le_refl _

/-- Only mint can change `total_supply`: every other call preserves it. -/
theorem applyOp_total_eq_of_not_mint (owner : Address) (o : Op) (c c' : L1xFtErc20)
    (hnm : o.isMint = false) (h : (applyOp owner o (some c)).1 = some c') :
    c'.total_supply = c.total_supply := by
  cases o with
  | opMint caller r a => simp [Op.isMint] at hnm
  | opTransfer caller r a =>
    rcases ft_transfer_cases (some c) caller r a with ⟨h0, _⟩ | ⟨c0, c1, hsc, hm, he⟩
    · simp only [applyOp] at h
      rw [h0] at h
      injection h with h
      subst h
      rfl
    · injection hsc with hc
      subst hc
      simp only [applyOp] at h
      rw [he] at h
      injection h with h
      subst h
      exact (transfer_fields _ _ caller r a hm).1
  | opTransferFrom caller snd r a =>
    rcases ft_transfer_from_cases (some c) caller snd r a with
      ⟨h0, _⟩ | ⟨c0, c1, c2, hsc, hsp, htr, he⟩
    · simp only [applyOp] at h
      rw [h0] at h
      injection h with h
      subst h
      rfl
    · injection hsc with hc
      subst hc
      simp only [applyOp] at h
      rw [he] at h
      injection h with h
      subst h
      have h1 := (allowance_update_fields _ _ .Spend snd caller a hsp).2.1
      have h2 := (transfer_fields _ _ snd r a htr).1
      omega
  | opApprove caller sp a =>
    rcases ft_approve_cases (some c) caller sp a with ⟨h0, _⟩ | ⟨c0, c1, hsc, hu, he⟩
    · simp only [applyOp] at h
      rw [h0] at h
      injection h with h
      subst h
      rfl
    · injection hsc with hc
      subst hc
      simp only [applyOp] at h
      rw [he] at h
      injection h with h
      subst h
      exact (allowance_update_fields _ _ .Set caller sp a hu).2.1
  | opIncreaseAllowance caller sp a =>
    rcases ft_increase_allowance_cases (some c) caller sp a with ⟨h0, _⟩ | ⟨c0, c1, hsc, hu, he⟩
    · simp only [applyOp] at h
      rw [h0] at h
      injection h with h
      subst h
      rfl
    · injection hsc with hc
      subst hc
      simp only [applyOp] at h
      rw [he] at h
      injection h with h
      subst h
      exact (allowance_update_fields _ _ .Increase caller sp a hu).2.1
  | opDecreaseAllowance caller sp a =>
    rcases ft_decrease_allowance_cases (some c) caller sp a with ⟨h0, _⟩ | ⟨c0, c1, hsc, hu, he⟩
    · simp only [applyOp] at h
      rw [h0] at h
      injection h with h
      subst h
      rfl
    · injection hsc with hc
      subst hc
      simp only [applyOp] at h
      rw [he] at h
      injection h with h
      subst h
      exact (allowance_update_fields _ _ .Decrease caller sp a hu).2.1
  | opAddAuthorizedCaller caller ac =>
    rcases add_authorized_caller_cases (some c) owner caller ac with ⟨h0, _⟩ | ⟨c0, hsc, he⟩
    · simp only [applyOp] at h
      rw [h0] at h
      injection h with h
      subst h
      rfl
    · injection hsc with hc
      subst hc
      simp only [applyOp] at h
      rw [he] at h
      injection h with h
      subst h
      rfl

/-- Monotonicity of `total_supply` along any sequence of calls. -/
theorem runOps_total_le (owner : Address) (ops : List Op) :
    ∀ c c', runOps owner ops (some c) = some c' →
    c.total_supply ≤ c'.total_supply := by
  induction ops with
  | nil =>
    intro c c' h
    simp only [runOps, List.foldl_nil] at h
    injection h with h
    subst h
    exact Nat.le_refl _
  | cons o rest ih =>
    intro c c' h
    simp only [runOps, List.foldl_cons] at h
    obtain ⟨c1, hc1⟩ := applyOp_some owner o c
    rw [hc1] at h
    have t1 := applyOp_total_le owner o c c1 hc1
    have t2 := ih c1 c' h
    omega

/-- A failing public call (other than `new`) leaves the store untouched. -/
theorem applyOp_fail (owner : Address) (o : Op) (s : Store)
    (h : (applyOp owner o s).2 ≠ none) : (applyOp owner o s).1 = s := by
  cases o with
  | opMint caller r a =>
    rcases ft_mint_cases s caller r a with ⟨h1, _⟩ | ⟨c, c', _, _, he⟩
    · exact h1
    · exfalso
      apply h
      show (L1xFtErc20.ft_mint s caller r a).2 = none
      rw [he]
  | opTransfer caller r a =>
    rcases ft_transfer_cases s caller r a with ⟨h1, _⟩ | ⟨c, c', _, _, he⟩
    · exact h1
    · exfalso
      apply h
      show (L1xFtErc20.ft_transfer s caller r a).2 = none
      rw [he]
  | opTransferFrom caller snd r a =>
    rcases ft_transfer_from_cases s caller snd r a with ⟨h1, _⟩ | ⟨c, c1, c2, _, _, _, he⟩
    · exact h1
    · exfalso
      apply h
      show (L1xFtErc20.ft_transfer_from s caller snd r a).2 = none
      rw [he]
  | opApprove caller sp a =>
    rcases ft_approve_cases s caller sp a with ⟨h1, _⟩ | ⟨c, c', _, _, he⟩
    · exact h1
    · exfalso
      apply h
      show (L1xFtErc20.ft_approve s caller sp a).2 = none
      rw [he]
  | opIncreaseAllowance caller sp a =>
    rcases ft_increase_allowance_cases s caller sp a with ⟨h1, _⟩ | ⟨c, c', _, _, he⟩
    · exact h1
    · exfalso
      apply h
      show (L1xFtErc20.ft_increase_allowance s caller sp a).2 = none
      rw [he]
  | opDecreaseAllowance caller sp a =>
    rcases ft_decrease_allowance_cases s caller sp a with ⟨h1, _⟩ | ⟨c, c', _, _, he⟩
    · exact h1
    · exfalso
      apply h
      show (L1xFtErc20.ft_decrease_allowance s caller sp a).2 = none
      rw [he]
  | opAddAuthorizedCaller caller ac =>
    rcases add_authorized_caller_cases s owner caller ac with ⟨h1, _⟩ | ⟨c, _, he⟩
    · exact h1
    · exfalso
      apply h
      show (L1xFtErc20.add_authorized_caller s owner caller ac).2 = none
      rw [he]

/-- A failing `new` call leaves the store untouched. -/
theorem new_fail (s : Store) (owner caller : Address) (md : FTMetadata)
    (ids : List Address) (amts : List Nat)
    (h : (L1xFtErc20.new s owner caller md ids amts).2 ≠ none) :
    (L1xFtErc20.new s owner caller md ids amts).1 = s := by
  rcases new_cases s owner caller md ids amts with ⟨h1, _⟩ | ⟨c, _, _, he⟩
  · exact h1
  · exfalso
    apply h
    show (L1xFtErc20.new s owner caller md ids amts).2 = none
    rw [he]

/-! Fine-grained behaviour of the allowance operations. -/

/-- Closed form of `FTAllowance::spend` on a present spender key. -/
theorem spend_eq (al : FTAllowance) (spender : Address) (b cur : Nat)
    (hsp : lookupA al.spenders spender = some cur) :
    al.spend spender b =
      if b ≤ cur then .ok { spenders := insertA al.spenders spender (cur - b) }
      else .error .AllowanceTooSmall := by
  simp only [FTAllowance.spend, hsp, ge_iff_le]

/-- `spend` on an absent spender key fails with the "No allowance for" panic. -/
theorem spend_absent (al : FTAllowance) (spender : Address) (b : Nat)
    (hsp : lookupA al.spenders spender = none) :
    al.spend spender b = .error .NoAllowance := by
  simp only [FTAllowance.spend, hsp]

/-- `allowance_update Spend` with a recorded owner entry delegates to
`FTAllowance::spend`. -/
theorem allowance_update_spend_some (c : L1xFtErc20) (owner spender : Address)
    (b : Nat) (al : FTAllowance) (hal : lookupA c.allowances owner = some al) :
    c.allowance_update .Spend owner spender b =
      match al.spend spender b with
      | .ok al' => .ok { c with allowances := insertA c.allowances owner al' }
      | .error e => .error e := by
  simp only [L1xFtErc20.allowance_update, hal]

/-- `allowance_update Spend` with no owner entry fails with NoAllowance. -/
theorem allowance_update_spend_none (c : L1xFtErc20) (owner spender : Address)
    (b : Nat) (hal : lookupA c.allowances owner = none) :
    c.allowance_update .Spend owner spender b = .error .NoAllowance := by
  simp only [L1xFtErc20.allowance_update, hal]

/-- `allowance_update Decrease` with a recorded owner entry delegates to
`FTAllowance::spend` (via `decrease`). -/
theorem allowance_update_decrease_some (c : L1xFtErc20) (owner spender : Address)
    (b : Nat) (al : FTAllowance) (hal : lookupA c.allowances owner = some al) :
    c.allowance_update .Decrease owner spender b =
      match al.spend spender b with
      | .ok al' => .ok { c with allowances := insertA c.allowances owner al' }
      | .error e => .error e := by
  simp only [L1xFtErc20.allowance_update, hal, FTAllowance.decrease]

/-- Reading the allowance through a recorded owner entry. -/
theorem allowanceOf_some (c : L1xFtErc20) (owner spender : Address)
    (al : FTAllowance) (hal : lookupA c.allowances owner = some al) :
    c.allowanceOf owner spender = (lookupA al.spenders spender).getD 0 := by
  simp only [L1xFtErc20.allowanceOf, hal, FTAllowance.get]

/-- A successful `Increase` records exactly the old allowance plus the added
amount under the spender key. -/
theorem increase_ok_allowance (c c1 : L1xFtErc20) (owner spender : Address) (a : Nat)
    (h : c.allowance_update .Increase owner spender a = .ok c1) :
    ∃ al1, lookupA c1.allowances owner = some al1 ∧
      lookupA al1.spenders spender = some (c.allowanceOf owner spender + a) := by
  cases hal : lookupA c.allowances owner with
  | none =>
    simp only [L1xFtErc20.allowance_update, hal] at h
    injection h with h
    subst h
    refine ⟨_, lookupA_insertA_self _ _ _, ?_⟩
    simp [FTAllowance.set, L1xFtErc20.allowanceOf, hal, lookupA_insertA_self]
  | some al =>
    simp only [L1xFtErc20.allowance_update, hal] at h
    cases hinc : al.increase spender a with
    | error e =>
      rw [hinc] at h
      exact Except.noConfusion h
    | ok al1' =>
      rw [hinc] at h
      injection h with h
      subst h
      refine ⟨al1', lookupA_insertA_self _ _ _, ?_⟩
      cases hsp : lookupA al.spenders spender with
      | none =>
        simp only [FTAllowance.increase, hsp] at hinc
        injection hinc with hinc
        subst hinc
        rw [lookupA_insertA_self]
        rw [allowanceOf_some c owner spender al hal, hsp]
        simp
      | some cur =>
        simp only [FTAllowance.increase, hsp, checked_add] at hinc
        by_cases hof : cur + a ≤ U128MAX
        · rw [if_pos hof] at hinc
          injection hinc with hinc
          subst hinc
          rw [lookupA_insertA_self]
          rw [allowanceOf_some c owner spender al hal, hsp]
          rfl
        · rw [if_neg hof] at hinc
          exact Except.noConfusion hinc

/-- Inversion of a successful `ft_increase_allowance` call: each precondition
held and the core update succeeded. -/
theorem ft_increase_allowance_ok_inv (s : Store) (caller sp : Address) (a : Nat)
    (c' : L1xFtErc20)
    (h : L1xFtErc20.ft_increase_allowance s caller sp a = (some c', none)) :
    a ≠ 0 ∧ ∃ c, s = some c ∧ caller ≠ sp ∧ getD c.balances caller ≠ 0 ∧
      c.allowance_update .Increase caller sp a = .ok c' := by
  by_cases h0 : a = 0
  · rw [L1xFtErc20.ft_increase_allowance, if_pos h0] at h
    simp at h
  · rw [L1xFtErc20.ft_increase_allowance, if_neg h0] at h
    cases s with
    | none => simp [L1xFtErc20.load] at h
    | some c =>
      simp only [L1xFtErc20.load] at h
      by_cases h1 : caller = sp
      · rw [if_pos h1] at h
        simp at h
      · rw [if_neg h1] at h
        by_cases h2 : getD c.balances caller = 0
        · rw [if_pos h2] at h
          simp at h
        · rw [if_neg h2] at h
          cases hu : c.allowance_update .Increase caller sp a with
          | error e =>
            rw [hu] at h
            simp at h
          | ok c1 =>
            rw [hu] at h
            simp only [L1xFtErc20.save, Prod.mk.injEq, Option.some.injEq] at h
            exact ⟨h0, c, rfl, h1, h2, h.1 ▸ hu⟩

/-- Closed form of `ft_decrease_allowance` once its three preconditions hold. -/
theorem ft_decrease_eq (c : L1xFtErc20) (owner spender : Address) (b : Nat)
    (hb : b ≠ 0) (hne : owner ≠ spender) (hbal : getD c.balances owner ≠ 0) :
    L1xFtErc20.ft_decrease_allowance (some c) owner spender b =
      match c.allowance_update .Decrease owner spender b with
      | .ok c' => (some c', none)
      | .error e => (some c, some e) := by
  rw [L1xFtErc20.ft_decrease_allowance, if_neg hb]
  simp only [L1xFtErc20.load]
  rw [if_neg hne, if_neg hbal]
  cases hu : c.allowance_update .Decrease owner spender b with
  | error e => rfl
  | ok c1 => rfl

/-! Characterization of `initialize_balance_holders` from the fresh state. -/

theorem initialize_ok_char (owner : Address) (md : FTMetadata) (ids : List Address)
    (amts : List Nat) (c : L1xFtErc20) (hlen : ids.length = amts.length)
    (h : (initialContract owner md).initialize_balance_holders ids amts = .ok c) :
    (∀ x, lookupA c.balances x = lookupA (ids.zip amts) x) ∧
    c.total_supply = sumVals (dedupKeysGo [] (ids.zip amts)) := by
  simp only [L1xFtErc20.initialize_balance_holders] at h
  rw [if_neg (by omega)] at h
  rw [if_neg (by simp [initialContract])] at h
  constructor
  · intro x
    have hl := initGo_lookup_new (ids.zip amts) _ [] c h x (List.not_mem_nil x)
    rw [hl]
    cases hz : lookupA (ids.zip amts) x with
    | none => simp [initialContract, lookupA]
    | some v => rfl
  · have ht := initGo_total (ids.zip amts) _ [] c h
    simpa [initialContract] using ht

theorem initialize_length_mismatch (owner : Address) (md : FTMetadata)
    (ids : List Address) (amts : List Nat) (hlen : ids.length ≠ amts.length) :
    (initialContract owner md).initialize_balance_holders ids amts =
      .error .LengthMismatch := by
  simp only [L1xFtErc20.initialize_balance_holders]
  rw [if_pos hlen]

theorem initialize_overflow_iff (owner : Address) (md : FTMetadata)
    (ids : List Address) (amts : List Nat) (hlen : ids.length = amts.length) :
    ((initialContract owner md).initialize_balance_holders ids amts =
        .error .ArithmeticOverflow ↔
      U128MAX < sumVals (dedupKeysGo [] (ids.zip amts))) := by
  simp only [L1xFtErc20.initialize_balance_holders]
  rw [if_neg (by omega), if_neg (by simp [initialContract])]
  have hi := initGo_error_iff (ids.zip amts) (initialContract owner md) []
    (by simp [initialContract])
  simpa [initialContract] using hi

/-- The `Set` allowance update always succeeds and stores the exact amount
(0 included) under the spender key. -/
theorem allowance_update_set_ok (c : L1xFtErc20) (owner spender : Address)
    (amount : Nat) :
    ∃ c', c.allowance_update .Set owner spender amount = .ok c' ∧
      ∃ al, lookupA c'.allowances owner = some al ∧
        lookupA al.spenders spender = some amount := by
  cases hal : lookupA c.allowances owner with
  | some al =>
    simp only [L1xFtErc20.allowance_update, hal]
    exact ⟨_, rfl, _, lookupA_insertA_self _ _ _,
      by simp [FTAllowance.set, lookupA_insertA_self]⟩
  | none =>
    simp only [L1xFtErc20.allowance_update, hal]
    exact ⟨_, rfl, _, lookupA_insertA_self _ _ _,
      by simp [FTAllowance.set, lookupA_insertA_self]⟩

/-! Concrete states for closed examples. -/

/-- Concrete metadata used in closed examples. -/
def mdExample : FTMetadata :=
  { name := "Token", decimals := 2, symbol := "TOK", icon := none }

/-- A concrete well-formed state: account 1 holds 10 of a total supply of 10
and has approved spender 2 for 5; address 7 is the only authorized caller. -/
def cExample : L1xFtErc20 :=
  { metadata := mdExample
    balances := [(1, 10)]
    allowances := [(1, { spenders := [(2, 5)] })]
    total_supply := 10
    authorized_callers := [7] }

/-- `cExample` after account 1 increases spender 2's allowance by 4. -/
def cIncreased : L1xFtErc20 :=
  { metadata := mdExample
    balances := [(1, 10)]
    allowances := [(1, { spenders := [(2, 9)] })]
    total_supply := 10
    authorized_callers := [7] }

/-- `cExample` after a transfer of 4 from account 1 to account 2. -/
def cTransferred : L1xFtErc20 :=
  { metadata := mdExample
    balances := [(2, 4), (1, 6)]
    allowances := [(1, { spenders := [(2, 5)] })]
    total_supply := 10
    authorized_callers := [7] }

/-- The state written by initializing with accounts `[1, 2, 1]` and amounts
`[100, 50, 30]` (scenario A of the spec). -/
def cScenario : L1xFtErc20 :=
  { metadata := mdExample
    balances := [(2, 50), (1, 100)]
    allowances := []
    total_supply := 150
    authorized_callers := [7] }

/-! The claims. -/

/-- C1: for every state reachable from initialization by any sequence of the
public operations (new, ft_mint, ft_transfer, ft_transfer_from, ft_approve,
ft_increase_allowance, ft_decrease_allowance, add_authorized_caller), the sum
of all entries in the balances map equals `total_supply`. -/
theorem c1_sum_balances_eq_total_supply (owner : Address) (s : Store)
    (hr : Reachable owner s) (c : L1xFtErc20) (hc : s = some c) :
    sumVals c.balances = c.total_supply :=
  (reachable_wfStore owner s hr c hc).2.1

theorem c1_sum_balances_eq_total_supply_witness :
    sumVals cExample.balances = cExample.total_supply :=
  c1_sum_balances_eq_total_supply 7
    (applyOp 7 (Op.opApprove 1 2 5) (L1xFtErc20.new none 7 7 mdExample [1] [10]).1).1
    (Reachable.opStep (Op.opApprove 1 2 5)
      (Reachable.newStep 7 mdExample [1] [10] Reachable.init))
    cExample (by decide)

/-- C2: if a public call fails (its error component is set), the persisted
store is left unchanged — the embedding mirrors the source control flow in
which `save()` is only reached after every check and mutation succeeded, so a
failing call never writes, even when in-memory fields were partially mutated
before the failing step. -/
theorem c2_failed_call_preserves_store :
    (∀ (owner : Address) (o : Op) (s : Store),
      (applyOp owner o s).2 ≠ none → (applyOp owner o s).1 = s) ∧
    (∀ (s : Store) (owner caller : Address) (md : FTMetadata)
      (ids : List Address) (amts : List Nat),
      (L1xFtErc20.new s owner caller md ids amts).2 ≠ none →
      (L1xFtErc20.new s owner caller md ids amts).1 = s) :=
  ⟨applyOp_fail, new_fail⟩

theorem c2_failed_call_preserves_store_witness :
    (applyOp 7 (Op.opMint 9 1 5) (some cExample)).1 = some cExample :=
  c2_failed_call_preserves_store.1 7 (Op.opMint 9 1 5) (some cExample) (by decide)

/-- C3 counterexample: account 1 HAS an allowance table entry (spender 2 is
recorded), and spender 3's recorded allowance is 0 < 1, so by the claim
spending 1 as spender 3 must fail with AllowanceTooSmall; the code instead
panics "No allowance for {spender_id}", i.e. a NoAllowance failure. -/
theorem c3_spend_counterexample :
    (lookupA cExample.allowances 1).isSome = true ∧
    cExample.allowanceOf 1 3 = 0 ∧ (0 : Nat) < 1 ∧
    cExample.allowance_update .Spend 1 3 1 = .error Err.NoAllowance ∧
    Err.NoAllowance ≠ Err.AllowanceTooSmall := by
  refine ⟨rfl, rfl, by omega, rfl, by decide⟩

/-- C3 amended: with an owner entry present, `spend` fails with
AllowanceTooSmall exactly when the spender key is recorded with a value below
the amount, and subtracts otherwise; when the spender key is absent from the
owner's entry — or the owner has no entry at all — it fails with NoAllowance. -/
theorem c3_spend_amended (c : L1xFtErc20) (owner spender : Address) (amount : Nat) :
    (lookupA c.allowances owner = none →
      c.allowance_update .Spend owner spender amount = .error .NoAllowance) ∧
    (∀ al, lookupA c.allowances owner = some al →
      (lookupA al.spenders spender = none →
        c.allowance_update .Spend owner spender amount = .error .NoAllowance) ∧
      (∀ cur, lookupA al.spenders spender = some cur →
        (cur < amount →
          c.allowance_update .Spend owner spender amount = .error .AllowanceTooSmall) ∧
        (amount ≤ cur →
          ∃ c', c.allowance_update .Spend owner spender amount = .ok c' ∧
            c'.allowanceOf owner spender = cur - amount))) := by
  constructor
  · intro hal
    exact allowance_update_spend_none c owner spender amount hal
  · intro al hal
    constructor
    · intro hsp
      rw [allowance_update_spend_some c owner spender amount al hal,
        spend_absent al spender amount hsp]
    · intro cur hsp
      constructor
      · intro hlt
        rw [allowance_update_spend_some c owner spender amount al hal,
          spend_eq al spender amount cur hsp, if_neg (by omega)]
      · intro hle
        rw [allowance_update_spend_some c owner spender amount al hal,
          spend_eq al spender amount cur hsp, if_pos hle]
        refine ⟨_, rfl, ?_⟩
        rw [allowanceOf_some _ owner spender _ (lookupA_insertA_self _ _ _),
          lookupA_insertA_self]
        rfl

theorem c3_spend_amended_witness :
    ∃ c', cExample.allowance_update .Spend 1 2 3 = .ok c' ∧
      c'.allowanceOf 1 2 = 2 :=
  (((c3_spend_amended cExample 1 2 3).2 ⟨[(2, 5)]⟩ rfl).2 5 rfl).2 (by omega)

/-- C4 counterexample: with NO state in the store, `ft_transfer` with
amount 0 fails with the zero-amount error, not NotInitialized — the amount
check precedes the load, contradicting the claimed ordering. -/
theorem c4_notinit_counterexample :
    L1xFtErc20.ft_transfer none 1 2 0 = (none, some Err.InvalidAmount) ∧
    Err.InvalidAmount ≠ Err.NotInitialized :=
  ⟨rfl, by decide⟩

/-- C4 amended: on an empty store, `ft_mint`, `ft_approve` and
`add_authorized_caller` fail with NotInitialized for every argument; the four
operations that assert the amount first (`ft_transfer`, `ft_transfer_from`,
`ft_increase_allowance`, `ft_decrease_allowance`) fail with NotInitialized for
every nonzero amount, but with the zero-amount error when amount = 0. -/
theorem c4_notinit_amended :
    (∀ caller r a, L1xFtErc20.ft_mint none caller r a =
      (none, some Err.NotInitialized)) ∧
    (∀ caller sp a, L1xFtErc20.ft_approve none caller sp a =
      (none, some Err.NotInitialized)) ∧
    (∀ owner caller ac, L1xFtErc20.add_authorized_caller none owner caller ac =
      (none, some Err.NotInitialized)) ∧
    (∀ caller r a, a ≠ 0 → L1xFtErc20.ft_transfer none caller r a =
      (none, some Err.NotInitialized)) ∧
    (∀ caller snd r a, a ≠ 0 → L1xFtErc20.ft_transfer_from none caller snd r a =
      (none, some Err.NotInitialized)) ∧
    (∀ caller sp a, a ≠ 0 → L1xFtErc20.ft_increase_allowance none caller sp a =
      (none, some Err.NotInitialized)) ∧
    (∀ caller sp a, a ≠ 0 → L1xFtErc20.ft_decrease_allowance none caller sp a =
      (none, some Err.NotInitialized)) ∧
    (∀ caller r, L1xFtErc20.ft_transfer none caller r 0 =
      (none, some Err.InvalidAmount)) ∧
    (∀ caller snd r, L1xFtErc20.ft_transfer_from none caller snd r 0 =
      (none, some Err.InvalidAmount)) ∧
    (∀ caller sp, L1xFtErc20.ft_increase_allowance none caller sp 0 =
      (none, some Err.InvalidAmount)) ∧
    (∀ caller sp, L1xFtErc20.ft_decrease_allowance none caller sp 0 =
      (none, some Err.InvalidAmount)) := by
  refine ⟨fun _ _ _ => rfl, fun _ _ _ => rfl, fun _ _ _ => rfl, ?_, ?_, ?_, ?_,
    ?_, ?_, ?_, ?_⟩
  · intro caller r a ha
    rw [L1xFtErc20.ft_transfer, if_neg ha]
    rfl
  · intro caller snd r a ha
    rw [L1xFtErc20.ft_transfer_from, if_neg ha]
    rfl
  · intro caller sp a ha
    rw [L1xFtErc20.ft_increase_allowance, if_neg ha]
    rfl
  · intro caller sp a ha
    rw [L1xFtErc20.ft_decrease_allowance, if_neg ha]
    rfl
  · intro caller r
    rw [L1xFtErc20.ft_transfer, if_pos rfl]
  · intro caller snd r
    rw [L1xFtErc20.ft_transfer_from, if_pos rfl]
  · intro caller sp
    rw [L1xFtErc20.ft_increase_allowance, if_pos rfl]
  · intro caller sp
    rw [L1xFtErc20.ft_decrease_allowance, if_pos rfl]

theorem c4_notinit_amended_witness :
    L1xFtErc20.ft_transfer none 1 2 5 = (none, some Err.NotInitialized) :=
  c4_notinit_amended.2.2.2.1 1 2 5 (by decide)

/-- C5: across every sequence of (successful or failing) public calls after
initialization, `total_supply` never decreases; every non-mint call leaves it
unchanged, and a successful mint adds exactly the minted amount. -/
theorem c5_total_supply_monotone :
    (∀ (owner : Address) (ops : List Op) (c c' : L1xFtErc20),
      runOps owner ops (some c) = some c' →
      c.total_supply ≤ c'.total_supply) ∧
    (∀ (owner : Address) (o : Op) (c c' : L1xFtErc20), o.isMint = false →
      (applyOp owner o (some c)).1 = some c' →
      c'.total_supply = c.total_supply) ∧
    (∀ (owner caller r : Address) (a : Nat) (c c' : L1xFtErc20),
      applyOp owner (Op.opMint caller r a) (some c) = (some c', none) →
      c'.total_supply = c.total_supply + a) := by
  refine ⟨runOps_total_le, applyOp_total_eq_of_not_mint, ?_⟩
  intro owner caller r a c c' h
  rcases ft_mint_cases (some c) caller r a with ⟨h1, h2⟩ | ⟨c0, c1, hsc, hm, he⟩
  · exfalso
    apply h2
    have h' : L1xFtErc20.ft_mint (some c) caller r a = (some c', none) := h
    rw [h']
  · injection hsc with hc
    subst hc
    have h' : L1xFtErc20.ft_mint (some c) caller r a = (some c', none) := h
    rw [he] at h'
    have hcc : c1 = c' := by
      have := congrArg Prod.fst h'
      simpa using this
    subst hcc
    exact mint_total _ _ r a hm

theorem c5_total_supply_monotone_witness :
    cExample.total_supply ≤ cTransferred.total_supply :=
  c5_total_supply_monotone.1 7 [Op.opTransfer 1 2 4] cExample cTransferred (by decide)

/-- C6: initialization keeps only the first occurrence of each duplicate
account (a later duplicate is ignored, not summed; every account's final
balance is the amount of its first occurrence in the zipped input),
`total_supply` is the checked sum of the kept amounts, length mismatch fails
with LengthMismatch, an overflowing running sum fails with ArithmeticOverflow,
and scenario A ([1, 2, 1] / [100, 50, 30] ↦ 1 = 100, 2 = 50, supply 150) holds. -/
theorem c6_initialize_dedup :
    (∀ (owner : Address) (md : FTMetadata) (ids : List Address) (amts : List Nat)
      (c : L1xFtErc20), ids.length = amts.length →
      (initialContract owner md).initialize_balance_holders ids amts = .ok c →
      (∀ x, lookupA c.balances x = lookupA (ids.zip amts) x) ∧
      c.total_supply = sumVals (dedupKeysGo [] (ids.zip amts))) ∧
    (∀ (owner : Address) (md : FTMetadata) (ids : List Address) (amts : List Nat),
      ids.length ≠ amts.length →
      (initialContract owner md).initialize_balance_holders ids amts =
        .error .LengthMismatch) ∧
    (∀ (owner : Address) (md : FTMetadata) (ids : List Address) (amts : List Nat),
      ids.length = amts.length →
      U128MAX < sumVals (dedupKeysGo [] (ids.zip amts)) →
      (initialContract owner md).initialize_balance_holders ids amts =
        .error .ArithmeticOverflow) ∧
    ((L1xFtErc20.new none 7 7 mdExample [1, 2, 1] [100, 50, 30]).1 =
        some cScenario ∧
      getD cScenario.balances 1 = 100 ∧ getD cScenario.balances 2 = 50 ∧
      cScenario.total_supply = 150) := by
  refine ⟨initialize_ok_char, initialize_length_mismatch, ?_, by decide⟩
  intro owner md ids amts hlen hof
  exact (initialize_overflow_iff owner md ids amts hlen).mpr hof

theorem c6_initialize_dedup_witness :
    lookupA cScenario.balances 1 = lookupA ([1, 2, 1].zip [100, 50, 30]) 1 :=
  (c6_initialize_dedup.1 7 mdExample [1, 2, 1] [100, 50, 30] cScenario rfl rfl).1 1

/-- C7: in a well-formed state (conservation invariant), for nonzero amounts,
`transfer` fails with InvalidOperation whenever sender = recipient regardless
of balances; for distinct accounts it fails with InsufficientBalance exactly
when the sender balance (0 if absent) is below the amount, and otherwise moves
the amount from the sender balance to the recipient balance. -/
theorem c7_transfer_spec (c : L1xFtErc20) (s r : Address) (a : Nat) (hw : Wf c)
    (ha : a ≠ 0) :
    (s = r → c.transfer s r a = .error .InvalidOperation) ∧
    (s ≠ r → getD c.balances s < a →
      c.transfer s r a = .error .InsufficientBalance) ∧
    (s ≠ r → a ≤ getD c.balances s →
      ∃ c', c.transfer s r a = .ok c' ∧
        getD c'.balances s = getD c.balances s - a ∧
        getD c'.balances r = getD c.balances r + a) := by
  obtain ⟨hnd, hsum, hle⟩ := hw
  refine ⟨?_, ?_, ?_⟩
  · intro hsr
    rw [transfer_eq, if_pos hsr]
  · intro hne hlt
    rw [transfer_eq, if_neg hne, if_pos hlt]
  · intro hne hge
    have hpair := getD_pair_le_sumVals c.balances s r hnd hne
    have h2 : ¬getD c.balances s < a := by omega
    have h3 : ¬U128MAX < getD c.balances r + a := by omega
    rw [transfer_eq, if_neg hne, if_neg h2, if_neg h3]
    refine ⟨_, rfl, ?_, ?_⟩
    · show getD (transferResultBalances c.balances s r a) s = getD c.balances s - a
      rw [transferResultBalances, getD_insertA_ne _ _ _ _ hne, getD_insertA_self]
    · show getD (transferResultBalances c.balances s r a) r = getD c.balances r + a
      rw [transferResultBalances, getD_insertA_self]

theorem c7_transfer_spec_witness :
    ∃ c', cExample.transfer 1 2 4 = .ok c' ∧
      getD c'.balances 1 = getD cExample.balances 1 - 4 ∧
      getD c'.balances 2 = getD cExample.balances 2 + 4 :=
  (c7_transfer_spec cExample 1 2 4 (by decide) (by decide)).2.2 (by decide) (by decide)

/-- C8: after a successful `ft_increase_allowance` of a nonzero amount,
`ft_decrease_allowance` of the same amount by the same owner succeeds and
returns the owner→spender allowance to its prior value; and decreasing by any
amount strictly greater than the current allowance fails with
AllowanceTooSmall and leaves the store — hence the allowance — unchanged. -/
theorem c8_allowance_roundtrip (c c1 : L1xFtErc20) (owner spender : Address)
    (a : Nat)
    (h : L1xFtErc20.ft_increase_allowance (some c) owner spender a =
      (some c1, none)) :
    (∃ c2, L1xFtErc20.ft_decrease_allowance (some c1) owner spender a =
        (some c2, none) ∧
      c2.allowanceOf owner spender = c.allowanceOf owner spender) ∧
    (∀ b, c1.allowanceOf owner spender < b →
      L1xFtErc20.ft_decrease_allowance (some c1) owner spender b =
        (some c1, some Err.AllowanceTooSmall)) := by
  obtain ⟨ha, c0, hsc, hne, hbal, hu⟩ := ft_increase_allowance_ok_inv _ _ _ _ _ h
  injection hsc with hc
  subst hc
  obtain ⟨al1, hal1, hsp1⟩ := increase_ok_allowance c c1 owner spender a hu
  have hbfields := (allowance_update_fields c c1 .Increase owner spender a hu).1
  have hbal1 : getD c1.balances owner ≠ 0 := by
    rw [hbfields]
    exact hbal
  have hval1 : c1.allowanceOf owner spender = c.allowanceOf owner spender + a := by
    rw [allowanceOf_some c1 owner spender al1 hal1, hsp1]
    rfl
  constructor
  · have hcond : a ≤ c.allowanceOf owner spender + a := by omega
    rw [ft_decrease_eq c1 owner spender a ha hne hbal1,
      allowance_update_decrease_some c1 owner spender a al1 hal1,
      spend_eq al1 spender a _ hsp1, if_pos hcond]
    refine ⟨_, rfl, ?_⟩
    rw [allowanceOf_some _ owner spender _ (lookupA_insertA_self _ _ _),
      lookupA_insertA_self]
    simp
  · intro b hb
    rw [hval1] at hb
    have hbne : b ≠ 0 := by omega
    have hcond : ¬b ≤ c.allowanceOf owner spender + a := by omega
    rw [ft_decrease_eq c1 owner spender b hbne hne hbal1,
      allowance_update_decrease_some c1 owner spender b al1 hal1,
      spend_eq al1 spender b _ hsp1, if_neg hcond]

theorem c8_allowance_roundtrip_witness :
    ∃ c2, L1xFtErc20.ft_decrease_allowance (some cIncreased) 1 2 4 =
        (some c2, none) ∧
      c2.allowanceOf 1 2 = cExample.allowanceOf 1 2 :=
  (c8_allowance_roundtrip cExample cIncreased 1 2 4 (by decide)).1

/-- C9: in a well-formed state (conservation invariant), with distinct sender
and recipient and sufficient sender balance, the checked subtraction and the
checked addition inside `transfer` cannot fail, and the transfer succeeds. -/
theorem c9_transfer_no_overflow (c : L1xFtErc20) (s r : Address) (a : Nat) (hw : Wf c)
    (hne : s ≠ r) (hbal : a ≤ getD c.balances s) :
    (checked_sub (getD c.balances s) a).isSome = true ∧
    (checked_add (getD (insertA c.balances s (getD c.balances s - a)) r) a).isSome
      = true ∧
    ∃ c', c.transfer s r a = .ok c' := by
  obtain ⟨hnd, hsum, hle⟩ := hw
  have hpair := getD_pair_le_sumVals c.balances s r hnd hne
  have hge : getD (insertA c.balances s (getD c.balances s - a)) r =
      getD c.balances r := getD_insertA_ne _ _ _ _ (Ne.symm hne)
  have h2 : ¬getD c.balances s < a := by omega
  have h3 : ¬U128MAX < getD c.balances r + a := by omega
  refine ⟨?_, ?_, ?_⟩
  · simp [checked_sub, hbal]
  · rw [hge]
    simp only [checked_add]
    rw [if_pos (by omega)]
    rfl
  · rw [transfer_eq, if_neg hne, if_neg h2, if_neg h3]
    exact ⟨_, rfl⟩

theorem c9_transfer_no_overflow_witness :
    (checked_sub (getD cExample.balances 1) 4).isSome = true ∧
    (checked_add (getD (insertA cExample.balances 1 (getD cExample.balances 1 - 4)) 2) 4).isSome
      = true ∧
    ∃ c', cExample.transfer 1 2 4 = .ok c' :=
  c9_transfer_no_overflow cExample 1 2 4 (by decide) (by decide) (by decide)

/-- C10: `ft_approve` accepts amount 0 — for a caller with non-zero balance
and a distinct spender, approving 0 succeeds and stores an explicit 0
allowance entry — whereas `ft_increase_allowance` and `ft_decrease_allowance`
reject amount 0 before any other check (even on an uninitialized store and
even for caller = spender). -/
theorem c10_zero_amount_policy :
    (∀ (c : L1xFtErc20) (caller spender : Address), caller ≠ spender →
      getD c.balances caller ≠ 0 →
      ∃ c', L1xFtErc20.ft_approve (some c) caller spender 0 = (some c', none) ∧
        ∃ al, lookupA c'.allowances caller = some al ∧
          lookupA al.spenders spender = some 0) ∧
    (∀ (s : Store) (caller spender : Address),
      L1xFtErc20.ft_increase_allowance s caller spender 0 =
        (s, some Err.InvalidAmount)) ∧
    (∀ (s : Store) (caller spender : Address),
      L1xFtErc20.ft_decrease_allowance s caller spender 0 =
        (s, some Err.InvalidAmount)) := by
  refine ⟨?_, ?_, ?_⟩
  · intro c caller spender hne hbal
    rw [L1xFtErc20.ft_approve]
    simp only [L1xFtErc20.load]
    rw [if_neg hne, if_neg hbal]
    obtain ⟨c', hu, al, hal', hsp'⟩ := allowance_update_set_ok c caller spender 0
    rw [hu]
    exact ⟨c', rfl, al, hal', hsp'⟩
  · intro s caller spender
    rw [L1xFtErc20.ft_increase_allowance, if_pos rfl]
  · intro s caller spender
    rw [L1xFtErc20.ft_decrease_allowance, if_pos rfl]

theorem c10_zero_amount_policy_witness :
    ∃ c', L1xFtErc20.ft_approve (some cExample) 1 3 0 = (some c', none) ∧
      ∃ al, lookupA c'.allowances 1 = some al ∧
        lookupA al.spenders 3 = some 0 :=
  c10_zero_amount_policy.1 cExample 1 3 (by decide) (by decide)
